import Mathlib

/-!
Verification development for the ultratab CSV ingestion pipeline.

The definitions below are a shallow embedding of the C++ sources:
  * `src/src/slice_parser.cc`   (SliceCsvParser)
  * `src/src/batch_builder.cc`  (sliceToStr, sliceRowToStrings, buildRowBatch)
  * the streaming row driver    (StreamingCsvParser::run)
  * the streaming columnar driver (StreamingColumnarParser::run)
  * the columnar builder        (rowsToColumnar and the typed value parsers)
  * the arena                   (Arena::allocate / write / copyUsedTo / reset)

Bytes are modelled as `Char` (the sources operate on `char` values and only
compare them for equality), byte buffers as `List Char`.  The two byte
segments handed to `SliceCsvParser::processTwoSegments` are modelled as a
single list `seg1 ++ seg2` indexed by natural numbers: index `n1 = len1`
is `seg2_start`/`seg1_end`, and pointer comparisons and subtractions of the
source become index comparisons and subtractions (the well-defined reading
of the source's pointer arithmetic when the two segments are viewed as
adjacent).
-/

namespace UltraTab

/-- Bytes `[a, b)` of a buffer. -/
def listSlice (data : List Char) (a b : Nat) : List Char :=
  (data.drop a).take (b - a)

/-- Apply `f` to the last element of a list (identity on `[]`);
models mutation of `row.back()`. -/
def mapLast {α : Type} (f : α → α) : List α → List α
  | [] => []
  | [x] => [f x]
  | x :: y :: rest => x :: mapLast f (y :: rest)

/-- Byte at index `i` (every read of the source is in bounds; the default
is never observed on reachable states). -/
def byteAt (data : List Char) (i : Nat) : Char :=
  data.getD i ' '

/-- `FieldSlice` of `slice_parser.h`: `(offset, len)` into the batch arena. -/
structure FieldSlice where
  offset : Nat
  len : Nat
deriving Repr, DecidableEq, Inhabited

/-- `SliceRow`: one row as a list of field slices. -/
abbrev SliceRow := List FieldSlice

/-- `SliceBatch` of `slice_parser.h`: a linearized arena and the rows. -/
structure SliceBatch where
  arena : List Char
  rows : List SliceRow
deriving Repr, DecidableEq, Inhabited

/-- The four states of the CSV state machine (`SliceCsvParser::State`). -/
inductive PState where
  | fieldStart
  | inField
  | inQuoted
  | inQuotedAfterQuote
deriving Repr, DecidableEq, Inhabited

/-- `CsvOptions` of `csv_parser.h`. -/
structure CsvOptions where
  delimiter : Char := ','
  quote : Char := '"'
  hasHeader : Bool := false
  batchSize : Nat := 10000
deriving Repr, DecidableEq, Inhabited

/-- The state of `SliceCsvParser`.  The arena is kept in linearized form
(`List Char`); the parser only ever calls `Arena::write`, i.e. alignment-1
allocations, for which the block arena linearizes to plain append
(theorem `arena_alloc_one_linearizes` below).  `emitted` is a
specification-only counter of the rows pushed by `emitRow` past the skip
check (the quantity metered by `rows_parsed` per batch in the driver). -/
structure Parser where
  opts : CsvOptions
  state : PState := .fieldStart
  remainder : List Char := []
  arena : List Char := []
  currentRow : SliceRow := []
  currentBatch : List SliceRow := []
  batchReady : Bool := false
  skipNextRow : Bool := false
  rowReady : Bool := false
  selected : List Nat := []
  logicalCol : Nat := 0
  afterDoubledQuote : Bool := false
  emitted : Nat := 0
deriving Repr, DecidableEq, Inhabited

/-- `SliceCsvParser::SliceCsvParser(options)`. -/
def Parser.init (opts : CsvOptions) : Parser :=
  { opts := opts }

/-- `SliceCsvParser::shouldEmitColumn`. -/
def shouldEmitColumn (selected : List Nat) (col : Nat) : Bool :=
  selected.isEmpty || selected.contains col

/-- `SliceCsvParser::skipOneRow`. -/
def Parser.skipOneRow (p : Parser) : Parser :=
  { p with skipNextRow := true }

/-- `SliceCsvParser::setSelectedColumnIndices`. -/
def Parser.setSelectedColumnIndices (p : Parser) (idxs : List Nat) : Parser :=
  { p with selected := idxs }

/-- `SliceCsvParser::emitRow`. -/
def Parser.emitRow (p : Parser) : Parser :=
  if p.skipNextRow then
    { p with skipNextRow := false, currentRow := [], rowReady := false,
             logicalCol := 0 }
  else
    let batch := p.currentBatch ++ [p.currentRow]
    { p with rowReady := true, currentBatch := batch, currentRow := [],
             logicalCol := 0,
             batchReady := p.batchReady || decide (batch.length ≥ p.opts.batchSize),
             emitted := p.emitted + 1 }

/-- `SliceCsvParser::appendQuoteToLastField`. -/
def Parser.appendQuoteToLastField (p : Parser) : Parser :=
  if p.currentRow.isEmpty then p
  else
    { p with arena := p.arena ++ [p.opts.quote],
             currentRow := mapLast (fun s => { s with len := s.len + 1 }) p.currentRow }

/-- `SliceCsvParser::takeBatch`: copy the arena out, move the rows, reset
the arena, start a new batch.  `current_row_` is not touched. -/
def Parser.takeBatch (p : Parser) : SliceBatch × Parser :=
  (⟨p.arena, p.currentBatch⟩,
   { p with batchReady := false, arena := [], currentBatch := [] })

/-- `SliceCsvParser::flush`. -/
def Parser.flush (p : Parser) : Parser :=
  if p.state = .inQuoted ∨ p.state = .inQuotedAfterQuote then p
  else
    let p := if ¬ p.currentRow.isEmpty then p.emitRow else p
    let p := { p with rowReady := false }
    if ¬ p.currentBatch.isEmpty then { p with batchReady := true } else p

/-- Immutable context of one `processTwoSegments` call: `data = seg1 ++ seg2`,
`n1 = len1`, `n = len1 + len2`; `seg2present` models `p2 != nullptr`
(the drivers pass a null second segment exactly when it is empty). -/
structure Seg2Ctx where
  data : List Char
  n1 : Nat
  n : Nat
  seg2present : Bool
deriving Repr

/-- Consumed byte counts reported by `processTwoSegments`. -/
structure Consumed where
  c1 : Nat
  c2 : Nat
deriving Repr, DecidableEq

/-- `consumed1/consumed2` at an early (batch-ready) return:
`in_seg1 ? cur - p1 : len1` and `in_seg1 ? 0 : cur - p2`. -/
def consumedAt (ctx : Seg2Ctx) (i : Nat) (inSeg1 : Bool) : Consumed :=
  if inSeg1 then ⟨i, 0⟩ else ⟨ctx.n1, i - ctx.n1⟩

/-- `consumed1/consumed2` when the scan loop exhausts the data. -/
def consumedAll (ctx : Seg2Ctx) : Consumed :=
  ⟨ctx.n1, if ctx.seg2present then ctx.n - ctx.n1 else 0⟩

/-- The `copyFieldToArena` lambda: advance the logical column counter,
honour projection, and copy `[fromI, toI)` into the arena in up to two
parts (the part inside segment 1 and the part inside segment 2). -/
def copyFieldToArena (ctx : Seg2Ctx) (p : Parser) (fromI toI : Nat) : Parser :=
  let col := p.logicalCol
  let p := { p with logicalCol := col + 1 }
  if ¬ shouldEmitColumn p.selected col then p
  else if fromI ≥ toI then
    { p with currentRow := p.currentRow ++ [⟨p.arena.length, 0⟩] }
  else
    let off := p.arena.length
    let part1 := if fromI < ctx.n1 then listSlice ctx.data fromI (min toI ctx.n1) else []
    let part2 :=
      if ctx.seg2present && decide (toI > ctx.n1) then
        listSlice ctx.data (max fromI ctx.n1) toI
      else []
    { p with arena := p.arena ++ (part1 ++ part2),
             currentRow := p.currentRow ++ [⟨off, part1.length + part2.length⟩] }

/-- `SliceCsvParser::appendToLastField(start, len)`: append `len` bytes
starting at virtual index `startI` to the last slice of the current row. -/
def appendToLastField (ctx : Seg2Ctx) (p : Parser) (startI len : Nat) : Parser :=
  if p.currentRow.isEmpty || len = 0 then p
  else
    { p with arena := p.arena ++ listSlice ctx.data startI (startI + len),
             currentRow := mapLast (fun s => { s with len := s.len + len }) p.currentRow }

/-- Result of `scanForSeparator` (`simd_scanner`): the first delimiter,
CR or LF in a span, together with which of the three it is.  `none` means
the span holds none (the scalar kernel returns `len`). -/
inductive SepHit where
  | delim
  | cr
  | lf
deriving Repr, DecidableEq

/-- `scanForSeparatorScalar` fused with the branch tests of the `InField`
case: offset of the first delimiter / CR / LF, and which one it is. -/
def findSep (delim : Char) : List Char → Option (Nat × SepHit)
  | [] => none
  | c :: rest =>
    if c = delim then some (0, .delim)
    else if c = '\r' then some (0, .cr)
    else if c = '\n' then some (0, .lf)
    else (findSep delim rest).map (fun s => (s.1 + 1, s.2))

/-- `scanForChar` (`simd_scanner`): offset of the first occurrence of `ch`. -/
def findChar (ch : Char) : List Char → Option Nat
  | [] => none
  | c :: rest =>
    if c = ch then some 0
    else (findChar ch rest).map (· + 1)

theorem findSep_some_lt {d : Char} : ∀ {l : List Char} {s : Nat × SepHit},
    findSep d l = some s → s.1 < l.length := by
  intro l
  induction l with
  | nil => intro s h; simp [findSep] at h
  | cons c rest ih =>
    intro s h
    simp only [findSep] at h
    split at h
    · cases h; simp
    · split at h
      · cases h; simp
      · split at h
        · cases h; simp
        · simp only [Option.map_eq_some'] at h
          obtain ⟨s', hs', rfl⟩ := h
          have := ih hs'
          simp only [List.length_cons]
          omega

theorem findChar_some_lt {ch : Char} : ∀ {l : List Char} {q : Nat},
    findChar ch l = some q → q < l.length := by
  intro l
  induction l with
  | nil => intro q h; simp [findChar] at h
  | cons c rest ih =>
    intro q h
    simp only [findChar] at h
    split at h
    · cases h; simp
    · simp only [Option.map_eq_some'] at h
      obtain ⟨q', hq', rfl⟩ := h
      have := ih hq'
      simp only [List.length_cons]
      omega

/-- Segment bookkeeping of `advance()`: given the already-incremented index
`i2`, hop to segment 2 (updating `end` and `in_seg1`) when segment 1 is
exhausted and a second segment exists.  Returns `(endIdx, inSeg1)`. -/
def advSeg (ctx : Seg2Ctx) (i2 : Nat) (endIdx : Nat) (inSeg1 : Bool) : Nat × Bool :=
  if inSeg1 && decide (i2 ≥ ctx.n1) && ctx.seg2present then (ctx.n, false)
  else (endIdx, inSeg1)

theorem advSeg_fst_cases (ctx : Seg2Ctx) (i2 endIdx : Nat) (inSeg1 : Bool) :
    (advSeg ctx i2 endIdx inSeg1).1 = endIdx ∨ (advSeg ctx i2 endIdx inSeg1).1 = ctx.n := by
  unfold advSeg
  split <;> simp

/-- The scan loop of `SliceCsvParser::processTwoSegments`
(`slice_parser.cc`, lines 194-322).  `i` is `cur`, `endIdx` is `end`,
`fieldStart` is `field_start`, all as virtual indices into
`ctx.data = seg1 ++ seg2`.  Each `advance()` of the source becomes an
index increment plus `advSeg`.  On exhaustion (`cur >= end`) the result
is `consumedAll`; the early batch-ready returns report `consumedAt`.

The loop is written with a fuel parameter so that it is structurally
recursive (and kernel-reducible): every iteration of the source loop
strictly increases `cur` (each branch either calls `advance()` at least
once, moves `cur` forward past a scan hit and advances, or jumps `cur`
to `end`, which the loop guard `cur < end` makes a strict increase), and
`cur` never exceeds `n`, so `n + 1` levels — the fuel supplied by
`processTwoSegments` — always reach the source's exit. -/
def procLoop (ctx : Seg2Ctx) : Nat → Parser → Nat → Nat → Nat → Bool →
    Consumed × Parser
  | 0, p, _, _, _, _ => (consumedAll ctx, p)
  | fuel + 1, p, i, endIdx, fieldStart, inSeg1 =>
  if i < endIdx then
    let c := byteAt ctx.data i
    match p.state with
    | .fieldStart =>
      if c = p.opts.quote then
        let p := { p with state := .inQuoted }
        let a := advSeg ctx (i + 1) endIdx inSeg1
        procLoop ctx fuel p (i + 1) a.1 (i + 1) a.2
      else if c = p.opts.delimiter then
        let p := copyFieldToArena ctx p i i
        let p := { p with state := .fieldStart }
        let a := advSeg ctx (i + 1) endIdx inSeg1
        procLoop ctx fuel p (i + 1) a.1 fieldStart a.2
      else if c = '\r' ∨ c = '\n' then
        let p := copyFieldToArena ctx p i i
        let p := p.emitRow
        let p := { p with state := .fieldStart }
        let a := advSeg ctx (i + 1) endIdx inSeg1
        if i + 1 < a.1 ∧ c = '\r' ∧ byteAt ctx.data (i + 1) = '\n' then
          let b := advSeg ctx (i + 2) a.1 a.2
          if p.batchReady then (consumedAt ctx (i + 2) b.2, p)
          else procLoop ctx fuel p (i + 2) b.1 fieldStart b.2
        else
          if p.batchReady then (consumedAt ctx (i + 1) a.2, p)
          else procLoop ctx fuel p (i + 1) a.1 fieldStart a.2
      else
        let p := { p with state := .inField }
        let a := advSeg ctx (i + 1) endIdx inSeg1
        procLoop ctx fuel p (i + 1) a.1 i a.2
    | .inField =>
      match findSep p.opts.delimiter (listSlice ctx.data i endIdx) with
      | none =>
        procLoop ctx fuel p endIdx endIdx fieldStart false
      | some (sep, hit) =>
        let j := i + sep
        let s1 := decide (j < ctx.n1)
        match hit with
        | .delim =>
          let p := copyFieldToArena ctx p fieldStart j
          let p := { p with state := .fieldStart }
          let a := advSeg ctx (j + 1) endIdx s1
          procLoop ctx fuel p (j + 1) a.1 fieldStart a.2
        | .cr =>
          let p := copyFieldToArena ctx p fieldStart j
          let p := p.emitRow
          let p := { p with state := .fieldStart }
          let a := advSeg ctx (j + 1) endIdx s1
          if j + 1 < a.1 ∧ byteAt ctx.data (j + 1) = '\n' then
            let b := advSeg ctx (j + 2) a.1 a.2
            if p.batchReady then (consumedAt ctx (j + 2) b.2, p)
            else procLoop ctx fuel p (j + 2) b.1 fieldStart b.2
          else
            if p.batchReady then (consumedAt ctx (j + 1) a.2, p)
            else procLoop ctx fuel p (j + 1) a.1 fieldStart a.2
        | .lf =>
          let p := copyFieldToArena ctx p fieldStart j
          let p := p.emitRow
          let p := { p with state := .fieldStart }
          let a := advSeg ctx (j + 1) endIdx s1
          if p.batchReady then (consumedAt ctx (j + 1) a.2, p)
          else procLoop ctx fuel p (j + 1) a.1 fieldStart a.2
    | .inQuoted =>
      match findChar p.opts.quote (listSlice ctx.data i endIdx) with
      | none =>
        procLoop ctx fuel p endIdx endIdx fieldStart false
      | some q =>
        let j := i + q
        let s1 := decide (j < ctx.n1)
        let p := { p with state := .inQuotedAfterQuote }
        let a := advSeg ctx (j + 1) endIdx s1
        procLoop ctx fuel p (j + 1) a.1 fieldStart a.2
    | .inQuotedAfterQuote =>
      if c = p.opts.quote then
        let p := copyFieldToArena ctx p fieldStart i
        let p := p.appendQuoteToLastField
        let a := advSeg ctx (i + 1) endIdx inSeg1
        let p := { p with state := .inQuoted, afterDoubledQuote := true }
        procLoop ctx fuel p (i + 1) a.1 (i + 1) a.2
      else if c = p.opts.delimiter then
        let p :=
          if p.afterDoubledQuote ∧ fieldStart < i then
            { appendToLastField ctx p fieldStart (i - 1 - fieldStart) with
                afterDoubledQuote := false }
          else if fieldStart < i then copyFieldToArena ctx p fieldStart (i - 1)
          else p
        let p := { p with state := .fieldStart }
        let a := advSeg ctx (i + 1) endIdx inSeg1
        procLoop ctx fuel p (i + 1) a.1 fieldStart a.2
      else if c = '\r' ∨ c = '\n' then
        let p :=
          if p.afterDoubledQuote ∧ fieldStart < i then
            { appendToLastField ctx p fieldStart (i - 1 - fieldStart) with
                afterDoubledQuote := false }
          else if fieldStart < i then copyFieldToArena ctx p fieldStart (i - 1)
          else p
        let p := p.emitRow
        let p := { p with state := .fieldStart }
        let a := advSeg ctx (i + 1) endIdx inSeg1
        if i + 1 < a.1 ∧ c = '\r' ∧ byteAt ctx.data (i + 1) = '\n' then
          let b := advSeg ctx (i + 2) a.1 a.2
          if p.batchReady then (consumedAt ctx (i + 2) b.2, p)
          else procLoop ctx fuel p (i + 2) b.1 fieldStart b.2
        else
          if p.batchReady then (consumedAt ctx (i + 1) a.2, p)
          else procLoop ctx fuel p (i + 1) a.1 fieldStart a.2
      else
        let p := { p with state := .inField }
        let a := advSeg ctx (i + 1) endIdx inSeg1
        procLoop ctx fuel p (i + 1) a.1 i a.2
  else (consumedAll ctx, p)

/-- `SliceCsvParser::processTwoSegments` (entry: lines 130-159 set up `cur`,
`end`, `in_seg1` and `field_start`, then run the scan loop).  The second
segment is handed to the parser as a null pointer exactly when it is
empty, so `seg2present` is `!seg2.isEmpty`. -/
def Parser.processTwoSegments (p : Parser) (seg1 seg2 : List Char) :
    Consumed × Parser :=
  let len1 := seg1.length
  let len2 := seg2.length
  let ctx : Seg2Ctx := ⟨seg1 ++ seg2, len1, len1 + len2, !seg2.isEmpty⟩
  if len1 > 0 then
    let fs := if p.state = .inQuoted ∧ byteAt ctx.data 0 = p.opts.quote then 1 else 0
    procLoop ctx (ctx.n + 1) p 0 len1 fs true
  else if len2 > 0 then
    let fs := if p.state = .inQuoted ∧ byteAt ctx.data 0 = p.opts.quote then 1 else 0
    procLoop ctx (ctx.n + 1) p 0 (len1 + len2) fs false
  else (⟨0, 0⟩, p)

/-- `SliceCsvParser::feed`: process both segments, then keep the unconsumed
tail (as reported by the consumed counters) as the new remainder. -/
def Parser.feed (p : Parser) (seg1 seg2 : List Char) : Parser :=
  let r := p.processTwoSegments seg1 seg2
  let rem :=
    if ¬ seg1.isEmpty ∧ r.1.c1 < seg1.length then
      seg1.drop r.1.c1 ++ seg2
    else if ¬ seg2.isEmpty ∧ r.1.c2 < seg2.length then
      seg2.drop r.1.c2
    else []
  { r.2 with remainder := rem }

/-- `sliceToStr` (`batch_builder.cc`) restricted to slices whose
`offset + len` does not overflow `std::size_t`: the empty string when
the slice is degenerate, otherwise the arena bytes truncated at the
arena end.  The faithful model of the `std::size_t` arithmetic is
`sliceToStr64` below; on the no-overflow domain the two agree
(`C10_builder_totality`), and the pipeline's own slices carry arena
positions, which never overflow. -/
def sliceToStr (s : FieldSlice) (arena : List Char) : List Char :=
  if s.offset ≥ arena.length ∨ s.len = 0 then []
  else listSlice arena s.offset (min (s.offset + s.len) arena.length)

/-- `SIZE_MAX + 1 = 2^64`: `std::size_t` arithmetic in `sliceToStr`
wraps modulo this. -/
def W64 : Nat := 18446744073709551616

/-- `sliceToStr` (`batch_builder.cc` lines 9-15) with the `std::size_t`
arithmetic modelled faithfully: `end = s.offset + s.len` wraps modulo
`2^64`, the clamp `if (end > arena_size) end = arena_size` runs on the
wrapped value, and `std::string(arena_data + s.offset, end - s.offset)`
takes the wrapped difference as its count, reading that many bytes from
`offset`.  When those bytes extend past the arena — as they always do
for a wrapped `end` below `offset`, since a C++ buffer has size below
`2^64` — the read is out of bounds: modelled as `none`. -/
def sliceToStr64 (s : FieldSlice) (arena : List Char) : Option (List Char) :=
  if s.offset ≥ arena.length ∨ s.len = 0 then some []
  else
    let e0 := (s.offset + s.len) % W64
    let e := if e0 > arena.length then arena.length else e0
    let count := (e + W64 - s.offset) % W64
    if s.offset + count ≤ arena.length then
      some (listSlice arena s.offset (s.offset + count))
    else none

/-- `sliceRowToStrings` (`batch_builder.cc`). -/
def sliceRowToStrings (row : SliceRow) (arena : List Char) : List (List Char) :=
  row.map (fun s => sliceToStr s arena)

/-- `sliceRowToStrings` over the faithful materializer: the loop pushes
each converted field in order, so one out-of-bounds slice poisons the
whole row. -/
def sliceRowToStrings64 : SliceRow → List Char → Option (List (List Char))
  | [], _ => some []
  | s :: rest, arena =>
    (sliceToStr64 s arena).bind fun v =>
      (sliceRowToStrings64 rest arena).map fun vs => v :: vs

/-- `buildRowBatch` (`batch_builder.cc`). -/
def buildRowBatch (b : SliceBatch) : List (List (List Char)) :=
  b.rows.map (fun row => sliceRowToStrings row b.arena)

/-- The row loop of `buildRowBatch` over the faithful materializer. -/
def buildRowBatch64Go : List SliceRow → List Char → Option (List (List (List Char)))
  | [], _ => some []
  | row :: rest, arena =>
    (sliceRowToStrings64 row arena).bind fun r =>
      (buildRowBatch64Go rest arena).map fun rs => r :: rs

/-- `buildRowBatch` over the faithful materializer. -/
def buildRowBatch64 (b : SliceBatch) : Option (List (List (List Char))) :=
  buildRowBatch64Go b.rows b.arena

/-- The `while (parser.hasBatch())` drain of the row driver
(`StreamingCsvParser::run`): `takeBatch` clears `batch_ready_` and nothing
inside the loop body sets it again, so the loop takes at most one batch. -/
def drainOne (p : Parser) : List SliceBatch × Parser :=
  if p.batchReady then
    let r := p.takeBatch
    ([r.1], r.2)
  else ([], p)

/-- The main read loop of `StreamingCsvParser::run` (`part_009`,
lines 63-127).  The chunk list is the sequence of non-empty spans the
reader yields; after it is exhausted the reader yields empty spans
forever, so at most one further iteration runs (with an empty chunk,
when a remainder is pending) before the `if (chunk.empty()) break`.
The driver's `seg1/len1` snapshot always equals the parser's remainder. -/
def runLoop : List (List Char) → Parser → List SliceBatch × Parser
  | [], p =>
    if p.remainder.isEmpty then ([], p)
    else
      let p1 := p.feed p.remainder []
      drainOne p1
  | c :: cs, p =>
    if c.isEmpty && p.remainder.isEmpty then ([], p)
    else
      let p1 := p.feed p.remainder c
      let r := drainOne p1
      if c.isEmpty then r
      else
        let rest := runLoop cs r.2
        (r.1 ++ rest.1, rest.2)

/-- The epilogue of `StreamingCsvParser::run` (lines 129-151): feed any
pending remainder once more, flush, and drain. -/
def runEpilogue (p : Parser) : List SliceBatch × Parser :=
  let p := if ¬ p.remainder.isEmpty then p.feed p.remainder [] else p
  let p := p.flush
  drainOne p

/-- The full row pipeline on a decomposition of the input into chunks:
construct the parser, skip one row when `has_header`, run the read loop
and the epilogue.  Returns the slice batches plus the final parser
state. -/
def runPipelineSlice (opts : CsvOptions) (chunks : List (List Char)) :
    List SliceBatch × Parser :=
  let p0 := Parser.init opts
  let p0 := if opts.hasHeader then p0.skipOneRow else p0
  let r1 := runLoop chunks p0
  let r2 := runEpilogue r1.2
  (r1.1 ++ r2.1, r2.2)

/-- The row batches the pipeline delivers (each `SliceBatch` is
materialized by `buildRowBatch` before being pushed on the queue). -/
def runPipeline (opts : CsvOptions) (chunks : List (List Char)) :
    List (List (List (List Char))) :=
  (runPipelineSlice opts chunks).1.map buildRowBatch

/-- All delivered rows in order, with batch boundaries erased. -/
def pipelineRows (opts : CsvOptions) (chunks : List (List Char)) :
    List (List (List Char)) :=
  (runPipeline opts chunks).flatten

/-! ## Columnar builder (`columnar_parser.h`, `part_008`) -/

/-- `ColumnType` of `columnar_parser.h`. -/
inductive ColumnType where
  | string
  | int32
  | int64
  | float64
  | bool
deriving Repr, DecidableEq, Inhabited

/-- `TypedFallback` of `columnar_parser.h`. -/
inductive TypedFallback where
  | string
  | null
deriving Repr, DecidableEq, Inhabited

/-- `ColumnarOptions`.  The `unordered_map` schema is modelled as an
association list whose order stands for the map's key iteration order
(the source itself notes this order is what defines headers when
`has_header` is false). -/
structure ColumnarOptions where
  delimiter : Char := ','
  quote : Char := '"'
  hasHeader : Bool := true
  batchSize : Nat := 10000
  select : List (List Char) := []
  schema : List (List Char × ColumnType) := []
  nullValues : List (List Char) := [[], "null".toList, "NULL".toList]
  trim : Bool := false
  typedFallback : TypedFallback := .null
deriving Repr, DecidableEq, Inhabited

/-- The whitespace set of `trimStringImpl` (`" \t\r\n"`). -/
def isTrimWs (c : Char) : Bool :=
  c = ' ' || c = '\t' || c = '\r' || c = '\n'

/-- `trimString` (`part_008`): drop leading and trailing whitespace. -/
def trimString (s : List Char) : List Char :=
  ((s.dropWhile isTrimWs).reverse.dropWhile isTrimWs).reverse

/-- `isNullValue` (`part_008`): exact string membership in `null_values`. -/
def isNullValue (s : List Char) (nullValues : List (List Char)) : Bool :=
  nullValues.contains s

/-- `parseBool` (`part_008`): `1`/`0`, and case-insensitive
`true`/`false`, by length. -/
def parseBool (s : List Char) : Option Bool :=
  match s with
  | [c] =>
    if c = '1' then some true
    else if c = '0' then some false
    else none
  | [c0, c1, c2, c3] =>
    if (c0 = 't' ∨ c0 = 'T') ∧ (c1 = 'r' ∨ c1 = 'R') ∧
       (c2 = 'u' ∨ c2 = 'U') ∧ (c3 = 'e' ∨ c3 = 'E') then some true
    else none
  | [c0, c1, c2, c3, c4] =>
    if (c0 = 'f' ∨ c0 = 'F') ∧ (c1 = 'a' ∨ c1 = 'A') ∧
       (c2 = 'l' ∨ c2 = 'L') ∧ (c3 = 's' ∨ c3 = 'S') ∧
       (c4 = 'e' ∨ c4 = 'E') then some false
    else none
  | _ => none

/-- Leading sign handling shared by the numeric parsers:
`(negative, rest)`. -/
def splitSign : List Char → Bool × List Char
  | '-' :: r => (true, r)
  | '+' :: r => (false, r)
  | r => (false, r)

/-- The digit loop of `parseInt32`: accumulate while digits, bailing out
when the accumulator exceeds `2147483648`; any trailing non-digit fails
(`p != end`). -/
def int32Digits (acc : Int) : List Char → Option Int
  | [] => some acc
  | c :: rest =>
    if c.isDigit then
      let acc := acc * 10 + ((c.toNat : Int) - ('0'.toNat : Int))
      if acc > 2147483648 then none else int32Digits acc rest
    else none

/-- `parseInt32` (`part_008`). -/
def parseInt32 (s : List Char) : Option Int :=
  if s.isEmpty then none
  else
    let sr := splitSign s
    match sr.2 with
    | [] => none
    | c :: _ =>
      if ¬ c.isDigit then none
      else
        match int32Digits 0 sr.2 with
        | none => none
        | some acc =>
          let v := if sr.1 then -acc else acc
          if v < -2147483648 ∨ v > 2147483647 then none else some v

/-- The digit loop of `parseInt64`: unsigned accumulator with the
`acc > max_val / 10` pre-check and `acc > max_val` post-check,
`max_val = 2^63`. -/
def int64Digits (acc : Nat) : List Char → Option Nat
  | [] => some acc
  | c :: rest =>
    if c.isDigit then
      if acc > 9223372036854775808 / 10 then none
      else
        let acc := acc * 10 + (c.toNat - '0'.toNat)
        if acc > 9223372036854775808 then none else int64Digits acc rest
    else none

/-- `parseInt64` (`part_008`).  The source computes
`-static_cast<int64>(acc)` for the negative branch; for `acc = 2^63`
the two's-complement conversion yields `-2^63`, modelled as mathematical
negation of the accumulator. -/
def parseInt64 (s : List Char) : Option Int :=
  if s.isEmpty then none
  else
    let sr := splitSign s
    match sr.2 with
    | [] => none
    | c :: _ =>
      if ¬ c.isDigit then none
      else
        match int64Digits 0 sr.2 with
        | none => none
        | some acc =>
          if sr.1 then
            if acc > 9223372036854775808 then none
            else some (-(acc : Int))
          else
            if acc > 9223372036854775807 then none else some (acc : Int)

/-- Value of a digit string. -/
def digitsToNat (ds : List Char) : Nat :=
  ds.foldl (fun a c => a * 10 + (c.toNat - '0'.toNat)) 0

/-- Modelled from the spec: `parseFloat64` delegates to the C library
function `std::strtod`, whose source is not part of this repository.  The
spec defines the accepted grammar as "sign, integer part, optional
fractional part, optional exponent", full consumption required, `NaN`
and infinities rejected; the numeric value is modelled as the exact
rational value of the decimal literal (binary64 rounding is not
modelled). -/
def parseFloat64 (s : List Char) : Option ℚ :=
  if s.isEmpty then none
  else
    let sr := splitSign s
    let ip := sr.2.takeWhile Char.isDigit
    let rest1 := sr.2.dropWhile Char.isDigit
    let fr :=
      match rest1 with
      | '.' :: r => (r.takeWhile Char.isDigit, r.dropWhile Char.isDigit)
      | r => (([] : List Char), r)
    if ip.isEmpty ∧ fr.1.isEmpty then none
    else
      let mant : ℚ :=
        (digitsToNat ip : ℚ) + (digitsToNat fr.1 : ℚ) / ((10 : ℚ) ^ fr.1.length)
      let sm := if sr.1 then -mant else mant
      match fr.2 with
      | [] => some sm
      | e :: r =>
        if e = 'e' ∨ e = 'E' then
          let er := splitSign r
          if er.2.isEmpty ∨ ¬ er.2.all Char.isDigit then none
          else
            let ex : ℤ := if er.1 then -(digitsToNat er.2 : ℤ) else (digitsToNat er.2 : ℤ)
            some (sm * (10 : ℚ) ^ ex)
        else none

/-- One column of a `ColumnarBatch`; only the vector matching `type` is
populated, and `nullMask` is allocated exactly for non-string types. -/
structure ColumnarColumn where
  type : ColumnType := .string
  strings : List (List Char) := []
  int32Data : List Int := []
  int64Data : List Int := []
  float64Data : List ℚ := []
  boolData : List Nat := []
  nullMask : Option (List Nat) := none
deriving Repr, DecidableEq, Inhabited

/-- `ColumnarBatch`: `columns` models the `unordered_map` as an
association list with insert-or-assign semantics (`assocSet`). -/
structure ColumnarBatchM where
  headers : List (List Char) := []
  columns : List (List Char × ColumnarColumn) := []
  rows : Nat := 0
deriving Repr, DecidableEq, Inhabited

/-- `map[key] = value`: insert-or-assign on the association list. -/
def assocSet (k : List Char) (v : ColumnarColumn) :
    List (List Char × ColumnarColumn) → List (List Char × ColumnarColumn)
  | [] => [(k, v)]
  | e :: rest => if e.1 = k then (k, v) :: rest else e :: assocSet k v rest

/-- Raw cell of a row: `(col_idx < row.size()) ? row[col_idx] : ""`. -/
def rawCell (row : List (List Char)) (colIdx : Nat) : List Char :=
  row.getD colIdx []

/-- Cell after the optional trim. -/
def prepCell (opts : ColumnarOptions) (row : List (List Char)) (colIdx : Nat) :
    List Char :=
  let cell := rawCell row colIdx
  if opts.trim then trimString cell else cell

/-- Per-row body of the `String` case of `rowsToColumnar`: null values
are stored as the empty string. -/
def stringEntry (opts : ColumnarOptions) (row : List (List Char)) (colIdx : Nat) :
    List Char :=
  let cell := prepCell opts row colIdx
  if isNullValue cell opts.nullValues then [] else cell

/-- Per-row body of the typed cases of `rowsToColumnar`, parameterized by
the parser: `(value, mask-bit)`.  The vectors are zero-initialized, so a
null or unparsable cell leaves the zero value and sets the mask; both
`typed_fallback` branches of the source set the mask. -/
def typedEntry {α : Type} (zero : α) (parse : List Char → Option α)
    (opts : ColumnarOptions) (row : List (List Char)) (colIdx : Nat) : α × Nat :=
  let cell := prepCell opts row colIdx
  if isNullValue cell opts.nullValues then (zero, 1)
  else
    match parse cell with
    | some v => (v, 0)
    | none => (zero, 1)

/-- The `switch (col_type)` of `rowsToColumnar`: build one column of the
batch for logical column `colIdx`. -/
def colFor (opts : ColumnarOptions) (batch : List (List (List Char)))
    (colIdx : Nat) (ct : ColumnType) : ColumnarColumn :=
  match ct with
  | .string =>
    { type := .string, strings := batch.map (fun r => stringEntry opts r colIdx) }
  | .int32 =>
    let es := batch.map (fun r => typedEntry (0 : Int) parseInt32 opts r colIdx)
    { type := .int32, int32Data := es.map Prod.fst, nullMask := some (es.map Prod.snd) }
  | .int64 =>
    let es := batch.map (fun r => typedEntry (0 : Int) parseInt64 opts r colIdx)
    { type := .int64, int64Data := es.map Prod.fst, nullMask := some (es.map Prod.snd) }
  | .float64 =>
    let es := batch.map (fun r => typedEntry (0 : ℚ) parseFloat64 opts r colIdx)
    { type := .float64, float64Data := es.map Prod.fst, nullMask := some (es.map Prod.snd) }
  | .bool =>
    let es := batch.map (fun r =>
      typedEntry false parseBool opts r colIdx)
    { type := .bool, boolData := (es.map Prod.fst).map (fun b => if b then 1 else 0),
      nullMask := some (es.map Prod.snd) }

/-- The header iteration of `rowsToColumnar` (`for col_idx ...` with the
selection `continue`), carried out with explicit accumulators so that
duplicate headers overwrite earlier entries exactly as `columns[hdr] = col`
does. -/
def rowsToColumnarGo (opts : ColumnarOptions) (batch : List (List (List Char))) :
    Nat → List (List Char) → List (List Char) →
    List (List Char × ColumnarColumn) →
    List (List Char) × List (List Char × ColumnarColumn)
  | _, [], outH, outC => (outH, outC)
  | colIdx, hdr :: rest, outH, outC =>
    if ¬ opts.select.isEmpty ∧ ¬ opts.select.contains hdr then
      rowsToColumnarGo opts batch (colIdx + 1) rest outH outC
    else
      let ct := (opts.schema.lookup hdr).getD .string
      let col := colFor opts batch colIdx ct
      rowsToColumnarGo opts batch (colIdx + 1) rest (outH ++ [hdr]) (assocSet hdr col outC)

/-- `rowsToColumnar` (`part_008`). -/
def rowsToColumnar (batch : List (List (List Char))) (headers : List (List Char))
    (opts : ColumnarOptions) : ColumnarBatchM :=
  if batch.isEmpty then { rows := batch.length, headers := [], columns := [] }
  else
    let r := rowsToColumnarGo opts batch 0 headers [] []
    { rows := batch.length, headers := r.1, columns := r.2 }

/-- `buildColumnarBatch` (`batch_builder.cc`): materialize the slice rows
and convert them to columnar form. -/
def buildColumnarBatch (sb : SliceBatch) (headers : List (List Char))
    (opts : ColumnarOptions) : ColumnarBatchM :=
  rowsToColumnar (buildRowBatch sb) headers opts

/-! ## Columnar streaming driver (`StreamingColumnarParser::run`, `part_002`) -/

/-- One message pushed on the columnar queue. -/
inductive ColResult where
  | batch (b : ColumnarBatchM)
  | error (msg : List Char)
  | done
deriving Repr, DecidableEq, Inhabited

/-- The local state of `StreamingColumnarParser::run`. -/
structure ColState where
  parser : Parser
  headers : List (List Char) := []
  selectedHeaders : List (List Char) := []
  selectedIndices : List Nat := []
  headersSet : Bool := false
  firstDataBatchBuilt : Bool := false
deriving Repr, DecidableEq

/-- Setup of `run` (lines 240-258): parser options, and headers taken
from the schema's key iteration order when `has_header` is false and a
schema is present. -/
def ColState.init (opts : ColumnarOptions) : ColState :=
  let popts : CsvOptions :=
    { delimiter := opts.delimiter, quote := opts.quote,
      hasHeader := false, batchSize := opts.batchSize }
  let st : ColState := { parser := Parser.init popts }
  if ¬ opts.hasHeader ∧ ¬ opts.schema.isEmpty then
    { st with headers := opts.schema.map Prod.fst, headersSet := true }
  else st

/-- The selection loops (lines 300-308 / 400-408): for each name of
`select`, in order, the first matching header index. -/
def computeSelected (select : List (List Char)) (headers : List (List Char)) :
    List Nat × List (List Char) :=
  select.foldl
    (fun acc name =>
      match headers.findIdx? (fun h => h == name) with
      | some i => (acc.1 ++ [i], acc.2 ++ [headers.getD i []])
      | none => acc)
    ([], [])

/-- Shared tail of the main-loop batch body (lines 325-373): the
header-parse error check, then building a columnar batch with the
first-batch headers or the selected headers. -/
def handleData (opts : ColumnarOptions) (st : ColState) (sb : SliceBatch)
    (pre : List ColResult) : List ColResult × ColState × Bool :=
  if st.headers.isEmpty then
    (pre ++ [ColResult.error ("Could not parse header row".toList)], st, true)
  else
    let usesSel := st.firstDataBatchBuilt ∧ ¬ st.selectedHeaders.isEmpty
    if ¬ sb.rows.isEmpty then
      let buildHeaders := if usesSel then st.selectedHeaders else st.headers
      let buildOpts := if usesSel then { opts with select := st.selectedHeaders } else opts
      let colB := buildColumnarBatch sb buildHeaders buildOpts
      (pre ++ [ColResult.batch colB], { st with firstDataBatchBuilt := true }, false)
    else
      let colB : ColumnarBatchM :=
        { headers := if st.selectedHeaders.isEmpty then st.headers else st.selectedHeaders,
          rows := 0 }
      (pre ++ [ColResult.batch colB], st, false)

/-- Body of the main-loop `while (parser.hasBatch())` (lines 289-375):
take the headers from the first non-empty batch, record the selection,
emit the header-only empty batch, then build.  The returned flag models
the `goto done` of the error path. -/
def handleBatchMain (opts : ColumnarOptions) (st : ColState) (sb : SliceBatch) :
    List ColResult × ColState × Bool :=
  if ¬ st.headersSet then
    if sb.rows.isEmpty then ([], st, false)
    else
      let headers := sliceRowToStrings (sb.rows.headD []) sb.arena
      let st := { st with headers := headers, headersSet := true }
      let st :=
        if ¬ opts.select.isEmpty then
          let sel := computeSelected opts.select headers
          { st with selectedIndices := sel.1, selectedHeaders := sel.2,
                    parser := st.parser.setSelectedColumnIndices sel.1 }
        else st
      let out1 :=
        if sb.rows.length = 1 then
          [ColResult.batch { headers := st.headers, rows := 0 }]
        else []
      if sb.rows.length ≤ 1 then (out1, st, false)
      else handleData opts st { sb with rows := sb.rows.drop 1 } out1
  else handleData opts st sb []

/-- Build step of the flush-path drain (lines 426-438). -/
def epiData (opts : ColumnarOptions) (st : ColState) (sb : SliceBatch) :
    List ColResult × ColState × Bool :=
  let usesSel := st.firstDataBatchBuilt ∧ ¬ st.selectedHeaders.isEmpty
  let buildHeaders := if usesSel then st.selectedHeaders else st.headers
  let buildOpts := if usesSel then { opts with select := st.selectedHeaders } else opts
  let colB := buildColumnarBatch sb buildHeaders buildOpts
  ([ColResult.batch colB], { st with firstDataBatchBuilt := true }, false)

/-- Body of the flush-path `while (parser.hasBatch())` (lines 389-439). -/
def handleBatchEpi (opts : ColumnarOptions) (st : ColState) (sb : SliceBatch) :
    List ColResult × ColState × Bool :=
  if ¬ st.headersSet then
    let st :=
      if ¬ sb.rows.isEmpty then
        let headers := sliceRowToStrings (sb.rows.headD []) sb.arena
        let st := { st with headers := headers, headersSet := true }
        if ¬ opts.select.isEmpty then
          let sel := computeSelected opts.select headers
          { st with selectedIndices := sel.1, selectedHeaders := sel.2,
                    parser := st.parser.setSelectedColumnIndices sel.1 }
        else st
      else st
    if sb.rows.length ≤ 1 then
      if st.headersSet ∧ sb.rows.length = 1 then
        ([ColResult.batch
            { headers := if st.selectedHeaders.isEmpty then st.headers else st.selectedHeaders,
              rows := 0 }], st, false)
      else ([], st, false)
    else epiData opts st { sb with rows := sb.rows.drop 1 }
  else epiData opts st sb

/-- Main-loop drain: `takeBatch` clears `batch_ready_`, so the `while`
runs at most once. -/
def drainColMain (opts : ColumnarOptions) (st : ColState) :
    List ColResult × ColState × Bool :=
  if st.parser.batchReady then
    let r := st.parser.takeBatch
    handleBatchMain opts { st with parser := r.2 } r.1
  else ([], st, false)

/-- Flush-path drain (same argument: at most one batch). -/
def drainColEpi (opts : ColumnarOptions) (st : ColState) :
    List ColResult × ColState × Bool :=
  if st.parser.batchReady then
    let r := st.parser.takeBatch
    handleBatchEpi opts { st with parser := r.2 } r.1
  else ([], st, false)

/-- Lines 385-450: the after-loop feed of the still-held `seg1` snapshot
(the EOF remainder is fed a second time when non-empty), flush, the
flush-path drain and the final `Done` / header-error message. -/
def colAfterLoop (opts : ColumnarOptions) (st : ColState) (seg1 : List Char) :
    List ColResult × ColState :=
  let st := if ¬ seg1.isEmpty then { st with parser := st.parser.feed seg1 [] } else st
  let st := { st with parser := st.parser.flush }
  let r := drainColEpi opts st
  if r.2.2 then (r.1, r.2.1)
  else
    let fin :=
      if ¬ r.2.1.headersSet ∧ opts.hasHeader then
        [ColResult.error ("Could not parse header row".toList)]
      else [ColResult.done]
    (r.1 ++ fin, r.2.1)

/-- The read loop of `StreamingColumnarParser::run` (lines 264-383)
followed by the after-loop code.  When the chunk list is exhausted the
reader yields an empty span: with no pending remainder the loop breaks
at once (line 273); otherwise one more iteration feeds the remainder,
drains, then feeds the remainder again, flushes and breaks
(lines 377-381) — the `seg1` snapshot is not cleared, so lines 385-386
feed that same remainder once more. -/
def colLoop (opts : ColumnarOptions) :
    List (List Char) → ColState → List ColResult × ColState
  | [], st =>
    if st.parser.remainder.isEmpty then colAfterLoop opts st []
    else
      let st := { st with parser := st.parser.feed st.parser.remainder [] }
      let rem2 := st.parser.remainder
      let r := drainColMain opts st
      if r.2.2 then (r.1, r.2.1)
      else
        let st := r.2.1
        let st := if ¬ rem2.isEmpty then { st with parser := st.parser.feed rem2 [] } else st
        let st := { st with parser := st.parser.flush }
        let r2 := colAfterLoop opts st rem2
        (r.1 ++ r2.1, r2.2)
  | c :: cs, st =>
    if c.isEmpty && st.parser.remainder.isEmpty then colAfterLoop opts st []
    else
      let st := { st with parser := st.parser.feed st.parser.remainder c }
      let rem2 := st.parser.remainder
      let r := drainColMain opts st
      if r.2.2 then (r.1, r.2.1)
      else if c.isEmpty then
        let st := r.2.1
        let st := if ¬ rem2.isEmpty then { st with parser := st.parser.feed rem2 [] } else st
        let st := { st with parser := st.parser.flush }
        let r2 := colAfterLoop opts st rem2
        (r.1 ++ r2.1, r2.2)
      else
        let r2 := colLoop opts cs r.2.1
        (r.1 ++ r2.1, r2.2)

/-- The messages the columnar stream delivers for a chunk decomposition. -/
def runColumnar (opts : ColumnarOptions) (chunks : List (List Char)) :
    List ColResult :=
  (colLoop opts chunks (ColState.init opts)).1

/-! ## Arena (`arena.h`, the arena translation unit) -/

/-- One block of the arena.  `content` is the materialized prefix of the
block: its length is the block's `used` counter, and alignment padding
appears in it as filler bytes (the source leaves those bytes
uninitialized; only their count is observable through `used`). -/
structure ArenaBlock where
  capacity : Nat
  content : List Char
deriving Repr, DecidableEq

/-- `used` of a block. -/
def ArenaBlock.used (b : ArenaBlock) : Nat :=
  b.content.length

/-- The arena: a list of blocks plus the logical byte counter. -/
structure Arena where
  blockSize : Nat
  blocks : List ArenaBlock
  logicalUsed : Nat
deriving Repr, DecidableEq

/-- `kMinBlockSize` / `kMaxBlockSize` clamping of the constructor. -/
def Arena.init (blockSize : Nat) : Arena :=
  { blockSize := max (1024 * 1024) (min (16 * 1024 * 1024) blockSize),
    blocks := [], logicalUsed := 0 }

/-- `Arena::used()`. -/
def Arena.used (a : Arena) : Nat :=
  a.logicalUsed

/-- `Arena::addBlock`. -/
def Arena.addBlock (a : Arena) : Arena :=
  { a with blocks := a.blocks ++ [{ capacity := a.blockSize, content := [] }] }

/-- `alignUp` of the arena translation unit.  The source uses the mask
formula `(v + al - 1) & ~(al - 1)`, applied only to power-of-two `al`
(other alignments are normalized to 1 first), where it agrees with
rounding up to a multiple of `al`. -/
def alignUp (v al : Nat) : Nat :=
  ((v + al - 1) / al) * al

/-- The alignment normalization of `Arena::allocate`: zero alignment
becomes 1, and so does any alignment failing the power-of-two mask test
`(alignment & (alignment - 1)) != 0`. -/
def normAlign (alignment : Nat) : Nat :=
  if alignment = 0 then 1
  else if Nat.land alignment (alignment - 1) ≠ 0 then 1
  else alignment

/-- Update the last block of a list. -/
def updateLastBlock (f : ArenaBlock → ArenaBlock) : List ArenaBlock → List ArenaBlock
  | [] => []
  | [b] => [f b]
  | b :: c :: rest => b :: updateLastBlock f (c :: rest)

/-- `Arena::allocate` carrying the bytes that end up in the allocation
(`Arena::write` passes its data, a bare allocation passes filler), and
returning the logical offset.  Zero-size allocations return the current
logical offset without touching the arena; otherwise the payload goes at
the aligned end of the last block, or into a fresh block when it does
not fit (the padding is local to the block; the logical counter advances
by exactly the payload size). -/
def Arena.alloc (a : Arena) (payload : List Char) (alignment : Nat) :
    Arena × Nat :=
  let size := payload.length
  if size = 0 then (a, a.logicalUsed)
  else
    let al := normAlign alignment
    let a := if a.blocks.isEmpty then a.addBlock else a
    let curUsed := (a.blocks.getLastD ⟨0, []⟩).used
    let alignedUsed := alignUp curUsed al
    let need := alignedUsed + size
    let curCap := (a.blocks.getLastD ⟨0, []⟩).capacity
    if need > curCap then
      let a := a.addBlock
      let alignedStart := alignUp 0 al
      let a :=
        { a with
            blocks := updateLastBlock
              (fun b => { b with content := List.replicate alignedStart ' ' ++ payload })
              a.blocks,
            logicalUsed := a.logicalUsed + size }
      (a, a.logicalUsed - size)
    else
      let a :=
        { a with
            blocks := updateLastBlock
              (fun b => { b with
                  content := b.content ++ List.replicate (alignedUsed - curUsed) ' ' ++ payload })
              a.blocks,
            logicalUsed := a.logicalUsed + size }
      (a, a.logicalUsed - size)

/-- `Arena::write(data, size)`: an alignment-1 allocation carrying the
data. -/
def Arena.write (a : Arena) (data : List Char) : Arena × Nat :=
  a.alloc data 1

/-- `Arena::copyUsedTo`: the blocks' used bytes in order.  (The source
skips blocks with `used == 0`, which contributes nothing.) -/
def Arena.copyUsedTo (a : Arena) : List Char :=
  (a.blocks.map ArenaBlock.content).flatten

/-- `Arena::reset`: zero every block's `used` and the logical counter;
blocks are retained. -/
def Arena.reset (a : Arena) : Arena :=
  { a with blocks := a.blocks.map (fun b => { b with content := [] }),
           logicalUsed := 0 }

/-- Sum of the blocks' `used_i`. -/
def Arena.sumUsed (a : Arena) : Nat :=
  (a.blocks.map ArenaBlock.used).sum

/-- One arena operation, for stating invariants over call sequences. -/
inductive ArenaOp where
  | alloc (payload : List Char) (alignment : Nat)
  | reset
deriving Repr, DecidableEq

/-- Apply one operation. -/
def Arena.applyOp (a : Arena) : ArenaOp → Arena
  | .alloc payload alignment => (a.alloc payload alignment).1
  | .reset => a.reset

/-- Apply a sequence of operations. -/
def Arena.applyOps (a : Arena) (ops : List ArenaOp) : Arena :=
  ops.foldl Arena.applyOp a

/-! ## Claim C1 — chunk invariance -/

/-- C1: chunk invariance fails.  Feeding the byte stream `"abc\n"` as the
two chunks `"ab"`, `"c\n"` loses the partial tail field `"ab"` of the
first chunk: `processTwoSegments` reports the whole chunk consumed when
the scan ends inside a field (`slice_parser.cc` lines 253-255 set
`cur = end`, and lines 321-322 then report full consumption), so `feed`
clears the remainder and the bytes are gone.  The two-chunk run delivers
the row `["c"]` where the one-chunk run delivers `["abc"]`. -/
theorem C1_chunk_invariance_counterexample :
    pipelineRows {} ["ab".toList, "c\n".toList] = [["c".toList]] ∧
    pipelineRows {} ["abc\n".toList] = [["abc".toList]] ∧
    pipelineRows {} ["ab".toList, "c\n".toList] ≠
      pipelineRows {} ["abc\n".toList] := by
  decide

/-! ## Claim C2 — remainder carry -/

/-- C2: the remainder does not hold a partial tail field.  After
`feed(nullptr, 0, "ab", 2)` the parser state is `InField` — the feed
ended in the middle of a field — yet `getRemainder` yields the empty
buffer, because `processTwoSegments` counts the partial field as
consumed; the bytes `"ab"` are in neither the arena nor the remainder,
so the next feed loses them. -/
theorem C2_remainder_drops_partial_field :
    ((Parser.init {}).feed [] ("ab".toList)).state = PState.inField ∧
    ((Parser.init {}).feed [] ("ab".toList)).currentRow = [] ∧
    ((Parser.init {}).feed [] ("ab".toList)).arena = [] ∧
    ((Parser.init {}).feed [] ("ab".toList)).remainder = [] := by
  decide

/-! ## Claim C3 — quote literalization -/

/-- C3: a doubled quote inside a quoted field produces two quote bytes,
not one.  In the `InQuotedAfterQuote`/quote branch
(`slice_parser.cc` lines 277-285) `copyFieldToArena(field_start, cur)`
copies up to but excluding the second quote of the pair — which includes
the first quote — and `appendQuoteToLastField` then appends another one.
`"a""b"` comes out as `a""b` instead of `a"b`, and a second doubled-quote
run pushes an extra `FieldSlice` (that branch calls `copyFieldToArena`,
which starts a new slice and advances the logical column counter again),
so `"a""b""c"` becomes the two fields `a""` and `b""c`. -/
theorem C3_doubled_quote_counterexample :
    pipelineRows {} [("\"a\"\"b\"\n").toList] = [[['a', '"', '"', 'b']]] ∧
    pipelineRows {} [("\"a\"\"b\"\n").toList] ≠ [[['a', '"', 'b']]] ∧
    pipelineRows {} [("\"a\"\"b\"\"c\"\n").toList] =
      [[['a', '"', '"'], ['b', '"', '"', 'c']]] := by
  decide

/-! ## Claim C4 — flush semantics -/

/-- C4 counterexample: for the input `"a,b"`, whose last record has no
trailing line terminator, the final field `"b"` does not appear in the
output: the slice parser has no pending-field store (the partial field
was dropped at feed end), so `flush` emits only the already-completed
fields of the pending row. -/
theorem C4_trailing_field_not_emitted :
    pipelineRows {} [("a,b").toList] = [[['a']]] ∧
    pipelineRows {} [("a,b").toList] ≠ [[['a'], ['b']]] := by
  decide

/-! ## Claim C5 — batch size bound -/

/-- C5 counterexample: rows already emitted can be stranded.  For the
stream `"a\n\"b"` with `batch_size = 2`, the row `["a"]` is emitted
(`emitted = 1`), but the stream ends inside a quote, `flush` is a no-op
and never sets `batch_ready`, so the final drain takes no batch: the sum
of the emitted batches' row counts is `0`, not `1`. -/
theorem C5_rows_stranded_at_quoted_eof :
    (runPipelineSlice { batchSize := 2 } [("a\n\"b").toList]).1 = [] ∧
    (runPipelineSlice { batchSize := 2 } [("a\n\"b").toList]).2.emitted = 1 := by
  decide

/-! ## Claim C8 — header alignment -/

/-- C8 counterexample: with `has_header = false` and no schema,
`headers_set` starts false and the columnar driver takes the first data
row as the header row (`part_002` lines 295-323); nothing synthesizes
`"Column1", "Column2", …` (that happens only in the XLSX front-end).
For the stream `"1,2\n3,4\n"` the first row is consumed as headers and
only one data row is delivered. -/
theorem C8_first_row_consumed_as_header :
    runColumnar { hasHeader := false } [("1,2\n3,4\n").toList] =
      [ColResult.batch
        { headers := [['1'], ['2']],
          columns :=
            [(['1'], { type := .string, strings := [['3']] }),
             (['2'], { type := .string, strings := [['4']] })],
          rows := 1 },
       ColResult.done] := by
  decide

/-! ## Claim C9 — arena invariant -/

/-- C9 counterexample: a power-of-two alignment greater than 1 breaks
`sum(used_i) = logical_used`.  After `write` of one byte (alignment 1)
followed by a one-byte allocation at alignment 2, the block's `used`
includes one padding byte: the blocks hold 3 used bytes while the
logical counter is 2, so `copyUsedTo` produces more than `used()`
bytes. -/
theorem C9_alignment_two_breaks_sum_invariant :
    (((Arena.init (1024 * 1024)).alloc ['x'] 1).1.alloc ['y'] 2).1.sumUsed = 3 ∧
    (((Arena.init (1024 * 1024)).alloc ['x'] 1).1.alloc ['y'] 2).1.logicalUsed = 2 ∧
    (((Arena.init (1024 * 1024)).alloc ['x'] 1).1.alloc ['y'] 2).1.copyUsedTo.length = 3 := by
  decide

/-! ## Claim C6 — projection -/

/-- C6 counterexample: stream `"a,b,c\n1,2,3\n4,5,6\n"` with
`select = ["c","a"]` and `batch_size = 1`.  The header-only empty batch
carries the full header list `[a,b,c]`, not `S ∩ headers_file`; the
first data batch is built with the full headers and the original
`select` while the parser already projects rows to two fields, so column
`"c"` reads past the row and holds `""` instead of `"3"`; at end of
stream the still-held remainder snapshot is fed twice (`part_002` lines
378 and 385), duplicating the row `4,5,6`; and the post-projection batch
is built with headers in `S`'s order `[c,a]`, pairing header `"c"` with
the cells of file column `"a"`. -/
theorem C6_projection_counterexample :
    runColumnar { batchSize := 1, select := ["c".toList, "a".toList] }
        [("a,b,c\n1,2,3\n4,5,6\n").toList] =
      [ColResult.batch { headers := [['a'], ['b'], ['c']], columns := [], rows := 0 },
       ColResult.batch
        { headers := [['a'], ['c']],
          columns :=
            [(['a'], { type := .string, strings := [['1']] }),
             (['c'], { type := .string, strings := [[]] })],
          rows := 1 },
       ColResult.batch
        { headers := [['c'], ['a']],
          columns :=
            [(['c'], { type := .string, strings := [['4'], ['4']] }),
             (['a'], { type := .string, strings := [['6'], ['6']] })],
          rows := 2 },
       ColResult.done] := by
  decide

/-- By contrast with the main-loop header-only empty batch above, the
flush-path empty batch (`part_002` line 415) carries `selected_headers`
— the selection's names in the selection's order — when a selection
matches: the header-only file `"a,b\n"` with `select = ["b","a"]`
delivers the empty batch with headers `[b, a]`, not the file list
`[a, b]`. -/
theorem colFlushEmptyBatch_selected_headers :
    runColumnar { select := ["b".toList, "a".toList] } [("a,b\n").toList] =
      [ColResult.batch { headers := [['b'], ['a']], columns := [], rows := 0 },
       ColResult.done] := by
  decide

/-! ## Claim C10 — builder totality -/

/-- C10 counterexample: slice contents in `std::size_t` range can make
`end = offset + len` wrap, so the clamp never fires and the count
`end - offset` wraps to a huge value: for arena `"abc"` and the slice
`(offset 1, len 2^64 - 1)`, the construction reads `2^64 - 1` bytes
from offset 1 — far outside the arena — instead of the truncated bytes
`"bc"` that an unbounded reading of the arithmetic would produce.  The
builder is therefore not total and in-bounds for arbitrary `SliceBatch`
contents. -/
theorem C10_sizet_wrap_counterexample :
    sliceToStr64 ⟨1, W64 - 1⟩ ("abc".toList) = none ∧
    buildRowBatch64 ⟨"abc".toList, [[⟨1, W64 - 1⟩]]⟩ = none ∧
    sliceToStr ⟨1, W64 - 1⟩ ("abc".toList) = ['b', 'c'] := by
  refine ⟨by decide, by decide, by decide⟩

theorem sliceToStr64_no_wrap (s : FieldSlice) (arena : List Char)
    (h : s.offset + s.len < W64) :
    sliceToStr64 s arena = some (sliceToStr s arena) := by
  unfold sliceToStr64 sliceToStr
  dsimp only
  rw [Nat.mod_eq_of_lt h]
  by_cases hdeg : s.offset ≥ arena.length ∨ s.len = 0
  · rw [if_pos hdeg, if_pos hdeg]
  · rw [if_neg hdeg, if_neg hdeg]
    push_neg at hdeg
    obtain ⟨hoff, hlen⟩ := hdeg
    by_cases hgt : s.offset + s.len > arena.length
    · rw [if_pos hgt]
      have hc : (arena.length + W64 - s.offset) % W64 = arena.length - s.offset := by
        have e1 : arena.length + W64 - s.offset = W64 + (arena.length - s.offset) := by
          omega
        rw [e1, Nat.add_mod_left]
        exact Nat.mod_eq_of_lt (by omega)
      rw [hc, if_pos (by omega)]
      have harg : s.offset + (arena.length - s.offset) =
          min (s.offset + s.len) arena.length := by omega
      rw [harg]
    · rw [if_neg hgt]
      have hc : (s.offset + s.len + W64 - s.offset) % W64 = s.len := by
        have e1 : s.offset + s.len + W64 - s.offset = W64 + s.len := by omega
        rw [e1, Nat.add_mod_left]
        exact Nat.mod_eq_of_lt (by omega)
      rw [hc, if_pos (by omega)]
      have harg : s.offset + s.len = min (s.offset + s.len) arena.length := by
        omega
      rw [← harg]

theorem sliceRowToStrings64_no_wrap (arena : List Char) :
    ∀ row : SliceRow, (∀ s ∈ row, s.offset + s.len < W64) →
      sliceRowToStrings64 row arena = some (sliceRowToStrings row arena)
  | [], _ => rfl
  | s :: rest, h => by
      unfold sliceRowToStrings64
      rw [sliceToStr64_no_wrap s arena (h s (by simp)),
          sliceRowToStrings64_no_wrap arena rest (fun x hx => h x (by simp [hx]))]
      rfl

theorem buildRowBatch64Go_no_wrap (arena : List Char) :
    ∀ rows : List SliceRow, (∀ row ∈ rows, ∀ s ∈ row, s.offset + s.len < W64) →
      buildRowBatch64Go rows arena =
        some (rows.map (fun row => sliceRowToStrings row arena))
  | [], _ => rfl
  | row :: rest, h => by
      unfold buildRowBatch64Go
      rw [sliceRowToStrings64_no_wrap arena row (h row (by simp)),
          buildRowBatch64Go_no_wrap arena rest (fun x hx => h x (by simp [hx]))]
      rfl

/-- C10 (amended): the builder is total and in-bounds exactly on the
slices whose `offset + len` does not overflow `std::size_t` — which
covers every slice the parser itself creates, since those carry arena
positions.  On that domain the faithful `std::size_t` model agrees with
the unbounded reading: a degenerate slice (`len = 0` or
`offset ≥ arena.len`) materializes as the empty string, every slice
materializes as exactly the truncated arena bytes
`arena[offset, min(offset+len, arena.len))`, and the builder preserves
the row count and each row's field count.  For wrapping contents the
count passed to the string constructor wraps and the read leaves the
arena (`C10_sizet_wrap_counterexample`). -/
theorem C10_builder_totality :
    (∀ (s : FieldSlice) (arena : List Char), s.offset + s.len < W64 →
        sliceToStr64 s arena = some (sliceToStr s arena)) ∧
    (∀ (s : FieldSlice) (arena : List Char),
        sliceToStr s arena =
          listSlice arena s.offset (min (s.offset + s.len) arena.length)) ∧
    (∀ (s : FieldSlice) (arena : List Char),
        s.len = 0 ∨ s.offset ≥ arena.length → sliceToStr s arena = []) ∧
    (∀ b : SliceBatch,
        (∀ row ∈ b.rows, ∀ s ∈ row, s.offset + s.len < W64) →
        buildRowBatch64 b = some (buildRowBatch b)) ∧
    (∀ b : SliceBatch, (buildRowBatch b).length = b.rows.length) ∧
    (∀ (b : SliceBatch) (i : Nat),
        ((buildRowBatch b).get? i).map List.length =
          (b.rows.get? i).map List.length) := by
  have hdeg : ∀ (s : FieldSlice) (arena : List Char),
      s.len = 0 ∨ s.offset ≥ arena.length → sliceToStr s arena = [] := by
    intro s arena h
    unfold sliceToStr
    rw [if_pos]
    tauto
  refine ⟨sliceToStr64_no_wrap, ?_, hdeg, ?_, ?_, ?_⟩
  · intro s arena
    unfold sliceToStr
    split_ifs with h
    · rcases h with h | h
      · unfold listSlice
        rw [List.drop_eq_nil_of_le h]
        simp
      · unfold listSlice
        have : min (s.offset + s.len) arena.length - s.offset = 0 := by omega
        simp [this]
    · rfl
  · intro b h
    unfold buildRowBatch64 buildRowBatch
    exact buildRowBatch64Go_no_wrap b.arena b.rows h
  · intro b
    simp [buildRowBatch]
  · intro b i
    cases h : b.rows[i]? <;>
      simp [buildRowBatch, sliceRowToStrings, List.getElem?_map, h]

/-- C10 witness: the amended conjuncts at concrete inputs, discharging
the no-overflow hypotheses there. -/
theorem C10_builder_totality_witness :
    (1 + 7 < W64 ∧
      sliceToStr64 ⟨1, 7⟩ ("abc".toList) =
        some (sliceToStr ⟨1, 7⟩ ("abc".toList))) ∧
    sliceToStr ⟨5, 0⟩ ("abc".toList) = [] ∧
    buildRowBatch64 ⟨"abc".toList, [[⟨1, 7⟩, ⟨5, 2⟩]]⟩ =
      some (buildRowBatch ⟨"abc".toList, [[⟨1, 7⟩, ⟨5, 2⟩]]⟩) ∧
    buildRowBatch ⟨"abc".toList, [[⟨1, 7⟩, ⟨5, 2⟩]]⟩ = [[['b', 'c'], []]] :=
  ⟨⟨by decide, C10_builder_totality.1 ⟨1, 7⟩ ("abc".toList) (by decide)⟩,
   C10_builder_totality.2.2.1 ⟨5, 0⟩ ("abc".toList) (by decide),
   C10_builder_totality.2.2.2.1 ⟨"abc".toList, [[⟨1, 7⟩, ⟨5, 2⟩]]⟩
     (by decide),
   by decide⟩

/-- C4 amended: `flush` in state `InQuoted`/`InQuotedAfterQuote` is a
no-op (nothing is emitted and the taken batches are untouched);
otherwise it emits the pending row — consisting of the fields already
completed; a trailing field whose terminator was never seen is not part
of it — honours the skip flag, clears `row_ready`, and sets
`batch_ready` exactly when the current batch is non-empty (keeping it
set if it already was). -/
theorem C4_flush_behavior (p : Parser) :
    ((p.state = .inQuoted ∨ p.state = .inQuotedAfterQuote) → p.flush = p) ∧
    (¬ (p.state = .inQuoted ∨ p.state = .inQuotedAfterQuote) →
      p.flush.currentBatch = p.currentBatch ++
          (if ¬ p.currentRow.isEmpty ∧ p.skipNextRow = false then [p.currentRow] else []) ∧
      p.flush.currentRow = [] ∧
      p.flush.rowReady = false ∧
      p.flush.batchReady = (p.batchReady || !p.flush.currentBatch.isEmpty)) := by
  constructor
  · intro h
    unfold Parser.flush
    rw [if_pos h]
  · intro h
    unfold Parser.flush Parser.emitRow
    rw [if_neg h]
    by_cases hrow : p.currentRow.isEmpty
    · have hre : p.currentRow = [] := by
        simpa [List.isEmpty_iff] using hrow
      simp only [hrow, not_true_eq_false, if_neg, ite_false, false_and, if_false]
      by_cases hb : p.currentBatch.isEmpty
      · have : p.currentBatch = [] := by simpa [List.isEmpty_iff] using hb
        simp [hb, this, hre]
      · simp [hb, hre, List.append_nil, Bool.or_true,
          (by simpa [List.isEmpty_iff] using hb : ¬ p.currentBatch = [])]
    · by_cases hskip : p.skipNextRow
      · simp only [hrow, hskip]
        by_cases hb : p.currentBatch.isEmpty
        · have : p.currentBatch = [] := by simpa [List.isEmpty_iff] using hb
          simp [hb, hskip, this]
        · simp [hb, hskip, List.append_nil,
            (by simpa [List.isEmpty_iff] using hb : ¬ p.currentBatch = [])]
      · simp only [hrow, hskip]
        simp [hskip, hrow, List.isEmpty_iff, List.append_ne_nil_of_right_ne_nil]

/-- C4 witness: the amended flush behaviour at two concrete states. -/
theorem C4_flush_behavior_witness :
    ({ Parser.init {} with state := .inQuoted, currentRow := [⟨0, 1⟩] } : Parser).flush =
      { Parser.init {} with state := .inQuoted, currentRow := [⟨0, 1⟩] } ∧
    ({ Parser.init {} with currentRow := [⟨0, 1⟩] } : Parser).flush.currentBatch =
      [[⟨0, 1⟩]] := by
  constructor
  · exact (C4_flush_behavior _).1 (by left; rfl)
  · have h := (C4_flush_behavior ({ Parser.init {} with currentRow := [⟨0, 1⟩] })).2
      (by decide)
    rw [h.1]
    decide

/-! ## Claim C9 — amended arena invariant -/

/-- The sum of the blocks' `used_i` is the length of the linearized
export, unconditionally. -/
theorem arena_sumUsed_eq_copy_length (a : Arena) :
    a.sumUsed = a.copyUsedTo.length := by
  unfold Arena.sumUsed Arena.copyUsedTo
  rw [List.length_flatten, List.map_map]
  rfl

theorem updateLastBlock_append (f : ArenaBlock → ArenaBlock) :
    ∀ (l : List ArenaBlock) (b : ArenaBlock),
      updateLastBlock f (l ++ [b]) = l ++ [f b] := by
  intro l
  induction l with
  | nil => intro b; rfl
  | cons x rest ih =>
    intro b
    cases rest with
    | nil => rfl
    | cons y t =>
      show x :: updateLastBlock f ((y :: t) ++ [b]) = _
      rw [ih b]
      rfl

/-- `alignUp` at alignment 1 is the identity. -/
theorem alignUp_one (v : Nat) : alignUp v 1 = v := by
  simp [alignUp]

/-- An alignment-1 allocation (in particular every `Arena::write`)
appends its payload to the linearized export. -/
theorem arena_alloc_one_linearizes (a : Arena) (pl : List Char) (al : Nat)
    (h : normAlign al = 1) :
    (a.alloc pl al).1.copyUsedTo = a.copyUsedTo ++ pl := by
  unfold Arena.alloc
  by_cases hz : pl.length = 0
  · have : pl = [] := List.eq_nil_of_length_eq_zero hz
    simp [hz, this]
  · rw [if_neg hz]
    simp only [h]
    set a1 := if a.blocks.isEmpty then a.addBlock else a with ha1
    have hne : a1.blocks ≠ [] := by
      rw [ha1]
      split
      · next hemp =>
        simp [Arena.addBlock]
      · next hemp =>
        simpa [List.isEmpty_iff] using hemp
    have hcopy1 : a1.copyUsedTo = a.copyUsedTo := by
      rw [ha1]
      split
      · simp [Arena.addBlock, Arena.copyUsedTo]
      · rfl
    obtain ⟨l, b, hlb⟩ : ∃ l b, a1.blocks = l ++ [b] := by
      rcases List.eq_nil_or_concat a1.blocks with hc | ⟨l, b, hc⟩
      · exact absurd hc hne
      · exact ⟨l, b, by simpa [List.concat_eq_append] using hc⟩
    have hcopy1' : (List.map ArenaBlock.content a1.blocks).flatten =
        (List.map ArenaBlock.content a.blocks).flatten := by
      simpa [Arena.copyUsedTo] using hcopy1
    have hlast : a1.blocks.getLastD ⟨0, []⟩ = b := by
      rw [hlb]
      exact List.getLastD_concat _ _ _
    split
    · -- new block: `aligned_start = alignUp 0 1 = 0`, fresh content is the payload
      simp only [Arena.copyUsedTo, Arena.addBlock, alignUp_one, List.replicate,
        List.nil_append]
      rw [updateLastBlock_append]
      simp [← hcopy1', List.flatten_append]
    · -- fits in the last block: `alignUp used 1 = used`, no padding
      simp only [Arena.copyUsedTo, hlast, alignUp_one]
      rw [hlb, updateLastBlock_append]
      have hbb : (ArenaBlock.used b) - (ArenaBlock.used b) = 0 := Nat.sub_self _
      simp only [hbb, List.replicate, List.nil_append]
      rw [← hcopy1', hlb]
      simp [List.flatten_append, List.append_assoc]

/-- The logical counter advances by exactly the payload size and the
returned offset is the pre-call counter, for every alignment (zero-size
allocations return the current offset without advancing). -/
theorem arena_alloc_offset (a : Arena) (pl : List Char) (al : Nat) :
    (a.alloc pl al).2 = a.logicalUsed ∧
    (a.alloc pl al).1.logicalUsed = a.logicalUsed + pl.length := by
  unfold Arena.alloc
  by_cases hz : pl.length = 0
  · simp [hz]
  · rw [if_neg hz]
    set a1 := if a.blocks.isEmpty then a.addBlock else a with ha1
    have hlu : a1.logicalUsed = a.logicalUsed := by
      rw [ha1]; split <;> rfl
    dsimp only
    split_ifs <;> simp [Arena.addBlock, hlu]

/-- `reset` zeroes every block's `used` and the logical counter. -/
theorem arena_reset_spec (a : Arena) :
    a.reset.copyUsedTo = [] ∧ a.reset.logicalUsed = 0 := by
  constructor
  · simp [Arena.reset, Arena.copyUsedTo]
  · rfl

/-- Alignment arguments that normalize to 1 (`0`, `1`, or any value
failing the power-of-two mask test). -/
def ArenaOp.alignOne : ArenaOp → Prop
  | .alloc _ al => normAlign al = 1
  | .reset => True

/-- C9 amended: the invariant `sum(used_i) = logical_used` (hence
`copyUsedTo` producing exactly `used()` bytes) holds after any sequence
of operations whose alignments normalize to 1 — which covers every
`Arena::write`, the only allocation the parser performs — while for any
alignment a non-zero allocation advances the logical offset by exactly
its size and a zero-size allocation returns the current offset without
advancing; under the alignment-1 restriction each allocation appends its
payload to the linearized export, so the offset it returns points at
those bytes inside the concatenation.  (Power-of-two alignments greater
than 1 break the sum invariant: `C9_alignment_two_breaks_sum_invariant`.) -/
theorem C9_arena_invariant :
    (∀ (a : Arena) (pl : List Char) (al : Nat),
        (a.alloc pl al).2 = a.logicalUsed ∧
        (a.alloc pl al).1.logicalUsed = a.logicalUsed + pl.length) ∧
    (∀ (a : Arena) (pl : List Char) (al : Nat), normAlign al = 1 →
        a.copyUsedTo.length = a.logicalUsed →
        (a.alloc pl al).1.copyUsedTo = a.copyUsedTo ++ pl ∧
        listSlice (a.alloc pl al).1.copyUsedTo (a.alloc pl al).2
            ((a.alloc pl al).2 + pl.length) = pl) ∧
    (∀ (bs : Nat) (ops : List ArenaOp), (∀ op ∈ ops, op.alignOne) →
        ((Arena.init bs).applyOps ops).sumUsed =
          ((Arena.init bs).applyOps ops).logicalUsed) := by
  refine ⟨arena_alloc_offset, ?_, ?_⟩
  · intro a pl al h hlen
    have hc := arena_alloc_one_linearizes a pl al h
    have ho := arena_alloc_offset a pl al
    refine ⟨hc, ?_⟩
    rw [hc, ho.1, listSlice, ← hlen]
    simp [List.drop_append_of_le_length, List.drop_length]
  · intro bs ops hops
    have key : ∀ (ops : List ArenaOp) (a : Arena), (∀ op ∈ ops, op.alignOne) →
        a.copyUsedTo.length = a.logicalUsed →
        (a.applyOps ops).copyUsedTo.length = (a.applyOps ops).logicalUsed := by
      intro ops
      induction ops with
      | nil => intro a _ h; exact h
      | cons op rest ih =>
        intro a hall h
        have hop := hall op (by simp)
        have hrest : ∀ op ∈ rest, op.alignOne := fun o ho => hall o (by simp [ho])
        cases op with
        | alloc pl al =>
          refine ih _ hrest ?_
          have hc := arena_alloc_one_linearizes a pl al hop
          have ho := arena_alloc_offset a pl al
          simp [Arena.applyOp, hc, ho.2, h]
        | reset =>
          refine ih _ hrest ?_
          have hr := arena_reset_spec a
          simp [Arena.applyOp, hr.1, hr.2]
    rw [arena_sumUsed_eq_copy_length]
    exact key ops (Arena.init bs) hops (by simp [Arena.init, Arena.copyUsedTo])

/-- C9 witness: the amended invariant on a concrete write/reset/write
sequence. -/
theorem C9_arena_invariant_witness :
    normAlign 1 = 1 ∧
    (((Arena.init 0).alloc ("abc".toList) 1).1.copyUsedTo =
       (Arena.init 0).copyUsedTo ++ "abc".toList) ∧
    (((Arena.init 0).applyOps
        [.alloc ("ab".toList) 1, .reset, .alloc ("xyz".toList) 0]).sumUsed =
      ((Arena.init 0).applyOps
        [.alloc ("ab".toList) 1, .reset, .alloc ("xyz".toList) 0]).logicalUsed) := by
  refine ⟨by decide, ?_, ?_⟩
  · exact (C9_arena_invariant.2.1 (Arena.init 0) ("abc".toList) 1 (by decide)
      (by decide)).1
  · exact C9_arena_invariant.2.2 0 _ (by
      intro op hop
      simp only [List.mem_cons, List.mem_singleton] at hop
      rcases hop with rfl | rfl | rfl | h
      · exact (by decide : normAlign 1 = 1)
      · exact trivial
      · exact (by decide : normAlign 0 = 1)
      · cases h)

/-! ## Claim C7 — null semantics -/

/-- Per-row characterization of a typed column's mask and value vectors,
generic over the cell parser. -/
theorem typedCol_row_spec {α : Type} (zero : α) (parse : List Char → Option α)
    (opts : ColumnarOptions) (batch : List (List (List Char))) (colIdx r : Nat)
    (hr : r < batch.length) :
    ((batch.map (fun row => typedEntry zero parse opts row colIdx)).map Prod.snd).get? r
      = some (if isNullValue (prepCell opts (batch.getD r []) colIdx) opts.nullValues
                ∨ (parse (prepCell opts (batch.getD r []) colIdx)).isNone = true
              then 1 else 0) ∧
    (∀ v, parse (prepCell opts (batch.getD r []) colIdx) = some v →
       isNullValue (prepCell opts (batch.getD r []) colIdx) opts.nullValues = false →
       ((batch.map (fun row => typedEntry zero parse opts row colIdx)).map Prod.fst).get? r
         = some v) := by
  have hge : batch[r]? = some batch[r] := List.getElem?_eq_getElem hr
  have hgd : batch.getD r [] = batch[r] := List.getD_eq_getElem batch [] hr
  constructor
  · rw [List.get?_eq_getElem?, List.getElem?_map, List.getElem?_map, hge, hgd]
    unfold typedEntry
    by_cases hn : isNullValue (prepCell opts batch[r] colIdx) opts.nullValues
    · simp [hn]
    · cases hp : parse (prepCell opts batch[r] colIdx) <;>
        simp [hn, hp, Bool.not_eq_true _ ▸ hn]
  · intro v hv hn
    rw [List.get?_eq_getElem?, List.getElem?_map, List.getElem?_map, hge]
    rw [hgd] at hv hn
    unfold typedEntry
    simp [hn, hv]

/-- C7: for every typed (non-`String`) column built by `rowsToColumnar`
with `typed_fallback = Null`, the null mask at row `r` is `1` exactly
when the prepared cell (trimmed when `trim` is set, the empty string
when the row is short) is string-equal to a member of `null_values` or
its typed parse fails; when the mask is `0` the typed vector holds the
parsed value (for `Bool`, the `uint8` encoding of it). -/
theorem C7_null_mask_semantics (opts : ColumnarOptions)
    (batch : List (List (List Char))) (colIdx r : Nat)
    (hr : r < batch.length) (hfb : opts.typedFallback = TypedFallback.null) :
    ((colFor opts batch colIdx .int32).nullMask.getD []).get? r =
        some (if isNullValue (prepCell opts (batch.getD r []) colIdx) opts.nullValues
                ∨ (parseInt32 (prepCell opts (batch.getD r []) colIdx)).isNone = true
              then 1 else 0) ∧
    (∀ v, parseInt32 (prepCell opts (batch.getD r []) colIdx) = some v →
       isNullValue (prepCell opts (batch.getD r []) colIdx) opts.nullValues = false →
       (colFor opts batch colIdx .int32).int32Data.get? r = some v) ∧
    ((colFor opts batch colIdx .int64).nullMask.getD []).get? r =
        some (if isNullValue (prepCell opts (batch.getD r []) colIdx) opts.nullValues
                ∨ (parseInt64 (prepCell opts (batch.getD r []) colIdx)).isNone = true
              then 1 else 0) ∧
    (∀ v, parseInt64 (prepCell opts (batch.getD r []) colIdx) = some v →
       isNullValue (prepCell opts (batch.getD r []) colIdx) opts.nullValues = false →
       (colFor opts batch colIdx .int64).int64Data.get? r = some v) ∧
    ((colFor opts batch colIdx .float64).nullMask.getD []).get? r =
        some (if isNullValue (prepCell opts (batch.getD r []) colIdx) opts.nullValues
                ∨ (parseFloat64 (prepCell opts (batch.getD r []) colIdx)).isNone = true
              then 1 else 0) ∧
    (∀ v, parseFloat64 (prepCell opts (batch.getD r []) colIdx) = some v →
       isNullValue (prepCell opts (batch.getD r []) colIdx) opts.nullValues = false →
       (colFor opts batch colIdx .float64).float64Data.get? r = some v) ∧
    ((colFor opts batch colIdx .bool).nullMask.getD []).get? r =
        some (if isNullValue (prepCell opts (batch.getD r []) colIdx) opts.nullValues
                ∨ (parseBool (prepCell opts (batch.getD r []) colIdx)).isNone = true
              then 1 else 0) ∧
    (∀ v, parseBool (prepCell opts (batch.getD r []) colIdx) = some v →
       isNullValue (prepCell opts (batch.getD r []) colIdx) opts.nullValues = false →
       (colFor opts batch colIdx .bool).boolData.get? r =
         some (if v then 1 else 0)) := by
  have h32 := typedCol_row_spec (0 : Int) parseInt32 opts batch colIdx r hr
  have h64 := typedCol_row_spec (0 : Int) parseInt64 opts batch colIdx r hr
  have hf := typedCol_row_spec (0 : ℚ) parseFloat64 opts batch colIdx r hr
  have hb := typedCol_row_spec false parseBool opts batch colIdx r hr
  refine ⟨?_, ?_, ?_, ?_, ?_, ?_, ?_, ?_⟩
  · simpa [colFor] using h32.1
  · intro v hv hn
    simpa [colFor] using h32.2 v hv hn
  · simpa [colFor] using h64.1
  · intro v hv hn
    simpa [colFor] using h64.2 v hv hn
  · simpa [colFor] using hf.1
  · intro v hv hn
    simpa [colFor] using hf.2 v hv hn
  · simpa [colFor] using hb.1
  · intro v hv hn
    have := hb.2 v hv hn
    simp only [colFor]
    rw [List.get?_eq_getElem?, List.getElem?_map]
    rw [List.get?_eq_getElem?] at this
    rw [this]
    rfl

/-- C7 witness: the mask and value characterization at a concrete
two-row batch (`"7"` parses, `"null"` is a null value). -/
theorem C7_null_mask_semantics_witness :
    (0 : Nat) < 2 ∧ ({} : ColumnarOptions).typedFallback = TypedFallback.null ∧
    ((colFor {} [[("7".toList)], [("null".toList)]] 0 .int32).nullMask.getD []).get? 0 =
      some 0 := by
  refine ⟨by decide, by decide, ?_⟩
  have h := (C7_null_mask_semantics {} [[("7".toList)], [("null".toList)]] 0 0
    (by decide) (by decide)).1
  rw [h]
  decide

/-! ## Claim C6 — amended projection -/

/-- Lookup in the association list that models `columns`. -/
def assocGet (k : List Char) : List (List Char × ColumnarColumn) → Option ColumnarColumn
  | [] => none
  | e :: rest => if e.1 = k then some e.2 else assocGet k rest

theorem assocGet_set_eq (k : List Char) (v : ColumnarColumn) :
    ∀ l, assocGet k (assocSet k v l) = some v := by
  intro l
  induction l with
  | nil => simp [assocSet, assocGet]
  | cons e rest ih =>
    by_cases h : e.1 = k
    · simp [assocSet, assocGet, h]
    · simp [assocSet, assocGet, h, ih]

theorem assocGet_set_ne (k k2 : List Char) (v : ColumnarColumn) (h : k ≠ k2) :
    ∀ l, assocGet k (assocSet k2 v l) = assocGet k l := by
  intro l
  have h2 : k2 ≠ k := Ne.symm h
  induction l with
  | nil => simp [assocSet, assocGet, h2]
  | cons e rest ih =>
    by_cases he : e.1 = k2
    · simp [assocSet, assocGet, he, h2]
    · simp [assocSet, assocGet, he, ih]

/-- The selection predicate of `rowsToColumnar`'s header loop. -/
def selKeep (opts : ColumnarOptions) (h : List Char) : Bool :=
  opts.select.isEmpty || opts.select.contains h

theorem rowsToColumnarGo_headers (opts : ColumnarOptions)
    (batch : List (List (List Char))) :
    ∀ (hdrs : List (List Char)) (colIdx : Nat) (outH : List (List Char))
      (outC : List (List Char × ColumnarColumn)),
      (rowsToColumnarGo opts batch colIdx hdrs outH outC).1 =
        outH ++ hdrs.filter (selKeep opts) := by
  intro hdrs
  induction hdrs with
  | nil => intro colIdx outH outC; simp [rowsToColumnarGo]
  | cons h rest ih =>
    intro colIdx outH outC
    unfold rowsToColumnarGo
    by_cases hs : ¬ opts.select.isEmpty ∧ ¬ opts.select.contains h
    · rw [if_pos hs, ih]
      have : selKeep opts h = false := by
        unfold selKeep
        rcases hs with ⟨h1, h2⟩
        simp [Bool.not_eq_true] at h1 h2
        simp [h1, h2]
      simp [List.filter_cons, this]
    · rw [if_neg hs]
      rw [ih]
      have : selKeep opts h = true := by
        unfold selKeep
        rcases not_and_or.mp hs with h1 | h2
        · simp only [not_not] at h1
          simp [h1]
        · simp only [not_not] at h2
          simp [List.mem_of_elem_eq_true h2]
      simp [List.filter_cons, this]

theorem rowsToColumnarGo_notmem (opts : ColumnarOptions)
    (batch : List (List (List Char))) (k : List Char) :
    ∀ (hdrs : List (List Char)) (colIdx : Nat) (outH : List (List Char))
      (outC : List (List Char × ColumnarColumn)), k ∉ hdrs →
      assocGet k (rowsToColumnarGo opts batch colIdx hdrs outH outC).2 =
        assocGet k outC := by
  intro hdrs
  induction hdrs with
  | nil => intro colIdx outH outC _; simp [rowsToColumnarGo]
  | cons h rest ih =>
    intro colIdx outH outC hk
    have hkh : k ≠ h := fun he => hk (by simp [he])
    have hkr : k ∉ rest := fun he => hk (by simp [he])
    unfold rowsToColumnarGo
    by_cases hs : ¬ opts.select.isEmpty ∧ ¬ opts.select.contains h
    · rw [if_pos hs, ih _ _ _ hkr]
    · rw [if_neg hs, ih _ _ _ hkr, assocGet_set_ne _ _ _ hkh]

theorem rowsToColumnarGo_mem (opts : ColumnarOptions)
    (batch : List (List (List Char))) :
    ∀ (hdrs : List (List Char)) (colIdx : Nat) (outH : List (List Char))
      (outC : List (List Char × ColumnarColumn)) (j : Nat) (hj : j < hdrs.length),
      hdrs.Nodup →
      selKeep opts (hdrs.get ⟨j, hj⟩) = true →
      assocGet (hdrs.get ⟨j, hj⟩) (rowsToColumnarGo opts batch colIdx hdrs outH outC).2 =
        some (colFor opts batch (colIdx + j)
          ((opts.schema.lookup (hdrs.get ⟨j, hj⟩)).getD .string)) := by
  intro hdrs
  induction hdrs with
  | nil =>
    intro colIdx outH outC j hj
    exact absurd hj (by simp)
  | cons h rest ih =>
    intro colIdx outH outC j hj hnd hsel
    cases j with
    | zero =>
      simp only [List.get] at hsel ⊢
      have hkeep : ¬ (¬ opts.select.isEmpty ∧ ¬ opts.select.contains h) := by
        unfold selKeep at hsel
        rcases Bool.or_eq_true _ _ |>.mp hsel with h1 | h2
        · exact fun hc => by simp [h1] at hc
        · exact fun hc => absurd (List.mem_of_elem_eq_true h2) (by simpa using hc.2)
      unfold rowsToColumnarGo
      rw [if_neg hkeep]
      have hnm : h ∉ rest := (List.nodup_cons.mp hnd).1
      rw [rowsToColumnarGo_notmem opts batch h rest _ _ _ hnm,
        assocGet_set_eq]
      simp
    | succ j =>
      have hj2 : j < rest.length := by simpa using hj
      have hnd2 : rest.Nodup := (List.nodup_cons.mp hnd).2
      simp only [List.get] at hsel ⊢
      unfold rowsToColumnarGo
      by_cases hs : ¬ opts.select.isEmpty ∧ ¬ opts.select.contains h
      · rw [if_pos hs]
        have := ih (colIdx + 1) outH outC j hj2 hnd2 hsel
        rw [this]
        have : colIdx + 1 + j = colIdx + (j + 1) := by omega
        rw [this]
      · rw [if_neg hs]
        have := ih (colIdx + 1) (outH ++ [h])
          (assocSet h (colFor opts batch colIdx ((opts.schema.lookup h).getD .string)) outC)
          j hj2 hnd2 hsel
        rw [this]
        have : colIdx + 1 + j = colIdx + (j + 1) := by omega
        rw [this]

/-- C6 amended: each columnar batch is built by filtering its build-time
header list through the selection: the emitted headers are exactly the
build-time headers that survive the selection, in build-time order, and
the column stored under a (distinct) build-time header at position `k`
is built from the row cells at position `k`.  For the first data batch
the build-time list is the file's header row, so its headers are
`S ∩ headers_file` in file order; for later batches the driver passes
the selected headers in `S`'s order and the parser emits the selected
columns in file order, so cells are paired positionally and match the
claimed logical columns only when `S` lists its names in file order; the
header-only empty batch of the main loop carries the full file headers
(counterexample `C6_projection_counterexample`). -/
theorem C6_projection_amended :
    (∀ (opts : ColumnarOptions) (batch : List (List (List Char)))
        (headers : List (List Char)), ¬ batch.isEmpty →
        (rowsToColumnar batch headers opts).headers =
          headers.filter (selKeep opts)) ∧
    (∀ (opts : ColumnarOptions) (batch : List (List (List Char)))
        (headers : List (List Char)) (k : Nat) (hk : k < headers.length),
        ¬ batch.isEmpty → headers.Nodup →
        selKeep opts (headers.get ⟨k, hk⟩) = true →
        assocGet (headers.get ⟨k, hk⟩) (rowsToColumnar batch headers opts).columns =
          some (colFor opts batch k
            ((opts.schema.lookup (headers.get ⟨k, hk⟩)).getD .string))) ∧
    (∀ (opts : ColumnarOptions) (batch : List (List (List Char))) (colIdx r : Nat),
        (colFor opts batch colIdx .string).strings.get? r =
          (batch.get? r).map (fun row => stringEntry opts row colIdx)) := by
  refine ⟨?_, ?_, ?_⟩
  · intro opts batch headers hne
    unfold rowsToColumnar
    rw [if_neg hne]
    simpa using rowsToColumnarGo_headers opts batch headers 0 [] []
  · intro opts batch headers k hk hne hnd hsel
    unfold rowsToColumnar
    rw [if_neg hne]
    simpa using rowsToColumnarGo_mem opts batch headers 0 [] [] k hk hnd hsel
  · intro opts batch colIdx r
    simp [colFor, List.get?_eq_getElem?, List.getElem?_map]

/-- C6 witness: the amended batch-construction property at a concrete
batch and selection. -/
theorem C6_projection_amended_witness :
    ¬ ([[("1".toList), ("2".toList)]] : List (List (List Char))).isEmpty ∧
    (rowsToColumnar [[("1".toList), ("2".toList)]]
        [("a".toList), ("b".toList)]
        { select := [("b".toList)] }).headers = [("b".toList)] := by
  refine ⟨by decide, ?_⟩
  rw [C6_projection_amended.1 { select := [("b".toList)] }
    [[("1".toList), ("2".toList)]] [("a".toList), ("b".toList)] (by decide)]
  decide

/-! ## Claim C8 — amended header alignment -/

/-- C8 amended: the columnar stream pairs the first data batch with
headers from the schema's key iteration order when `has_header` is false
and a schema is present (the first row stays data); in every other case
— including `has_header = false` with no schema — `headers_set` starts
false and the first non-empty batch's first row is consumed as the
header row; nothing in this driver synthesizes `"Column1", …` (that
happens only in the XLSX front-end). -/
theorem C8_header_source_amended :
    (∀ opts : ColumnarOptions, opts.hasHeader = false → ¬ opts.schema.isEmpty →
        (ColState.init opts).headersSet = true ∧
        (ColState.init opts).headers = opts.schema.map Prod.fst) ∧
    (∀ opts : ColumnarOptions, opts.hasHeader = true ∨ opts.schema.isEmpty →
        (ColState.init opts).headersSet = false ∧
        (ColState.init opts).headers = []) ∧
    (∀ (opts : ColumnarOptions) (st : ColState) (sb : SliceBatch),
        st.headersSet = false → ¬ sb.rows.isEmpty →
        (handleBatchMain opts st sb).2.1.headers =
          sliceRowToStrings (sb.rows.headD []) sb.arena ∧
        (handleBatchMain opts st sb).2.1.headersSet = true) := by
  refine ⟨?_, ?_, ?_⟩
  · intro opts hh hs
    unfold ColState.init
    rw [if_pos ⟨by simp [hh], hs⟩]
    exact ⟨rfl, rfl⟩
  · intro opts h
    unfold ColState.init
    rw [if_neg ?_]
    · exact ⟨rfl, rfl⟩
    · rcases h with h | h
      · intro hc
        simp [h] at hc
      · intro hc
        exact hc.2 h
  · intro opts st sb hset hrows
    have hdata : ∀ (st2 : ColState) (sb2 : SliceBatch) (pre : List ColResult),
        (handleData opts st2 sb2 pre).2.1.headers = st2.headers ∧
        (handleData opts st2 sb2 pre).2.1.headersSet = st2.headersSet := by
      intro st2 sb2 pre
      unfold handleData
      split_ifs <;> simp_all
    unfold handleBatchMain
    rw [if_pos (by simp [hset]), if_neg hrows]
    dsimp only
    split_ifs with h1 h2 h3 <;>
      first
        | exact ⟨rfl, rfl⟩
        | (refine ⟨?_, ?_⟩ <;> simp [hdata])

/-- C8 witness: the three header sources at concrete options and a
concrete first batch. -/
theorem C8_header_source_amended_witness :
    (({ hasHeader := false, schema := [("x".toList, ColumnType.int32)] }
        : ColumnarOptions).hasHeader = false) ∧
    (ColState.init { hasHeader := false, schema := [("x".toList, ColumnType.int32)] }).headers
      = [("x".toList)] ∧
    (handleBatchMain {} (ColState.init {}) ⟨"ab".toList, [[⟨0, 2⟩]]⟩).2.1.headers
      = [("ab".toList)] := by
  refine ⟨by decide, ?_, ?_⟩
  · exact (C8_header_source_amended.1
      { hasHeader := false, schema := [("x".toList, ColumnType.int32)] }
      (by decide) (by decide)).2
  · have h := (C8_header_source_amended.2.2 {} (ColState.init {})
      ⟨"ab".toList, [[⟨0, 2⟩]]⟩ (by decide) (by decide)).1
    rw [h]
    decide

/-! ## Claim C5 — amended batch bounds

The invariant relation used throughout: relative to an entry state `p`,
an exit state `q` keeps the options, accounts every emitted row into the
current batch, and respects the batch bound (`batch_ready` implies a
full batch with an empty in-progress row; otherwise the batch is
strictly below the bound). -/

def StepOk (p q : Parser) : Prop :=
  q.opts = p.opts ∧
  q.emitted + p.currentBatch.length = p.emitted + q.currentBatch.length ∧
  (q.batchReady = false → q.currentBatch.length < q.opts.batchSize) ∧
  (q.batchReady = true → q.currentRow = [] ∧ q.currentBatch.length = q.opts.batchSize)

theorem StepOk.trans {p q r : Parser} (h1 : StepOk p q) (h2 : StepOk q r) :
    StepOk p r := by
  obtain ⟨a1, b1, c1, d1⟩ := h1
  obtain ⟨a2, b2, c2, d2⟩ := h2
  exact ⟨a2.trans a1, by omega, c2, d2⟩

theorem stepok_components {p q : Parser} (hready : p.batchReady = false)
    (hlen : p.currentBatch.length < p.opts.batchSize)
    (h1 : q.opts = p.opts) (h2 : q.currentBatch = p.currentBatch)
    (h3 : q.emitted = p.emitted) (h4 : q.batchReady = p.batchReady) :
    StepOk p q := by
  refine ⟨h1, by rw [h3, h2], ?_, ?_⟩
  · intro _
    rw [h2, h1]
    exact hlen
  · intro hr
    rw [h4, hready] at hr
    cases hr

theorem stepok_congr_right {p q r : Parser} (h : StepOk p q)
    (h1 : r.opts = q.opts) (h2 : r.currentBatch = q.currentBatch)
    (h3 : r.emitted = q.emitted) (h4 : r.batchReady = q.batchReady)
    (h5 : r.currentRow = q.currentRow) : StepOk p r := by
  obtain ⟨a, b, c, d⟩ := h
  refine ⟨h1.trans a, by rw [h3, h2]; exact b, ?_, ?_⟩
  · intro hr
    rw [h2, h1]
    exact c (by rw [← h4]; exact hr)
  · intro hr
    rw [h5, h2, h1]
    exact d (by rw [← h4]; exact hr)

/-- `emitRow` from a non-ready state below the bound lands back inside
the invariant: the skip path changes nothing it tracks; the emit path
adds the row to the batch and bumps the counter, setting `batch_ready`
exactly when the bound is reached. -/
theorem stepok_emitRow (p : Parser) (hready : p.batchReady = false)
    (hlen : p.currentBatch.length < p.opts.batchSize) : StepOk p p.emitRow := by
  unfold StepOk Parser.emitRow
  by_cases hs : p.skipNextRow
  · simp [hs, hready, hlen]
  · rw [if_neg hs]
    refine ⟨rfl, ?_, ?_, ?_⟩
    · dsimp only
      simp only [List.length_append, List.length_singleton]
      omega
    · dsimp only
      intro hr
      rw [hready, Bool.false_or, decide_eq_false_iff_not, not_le] at hr
      exact hr
    · dsimp only
      intro hr
      rw [hready, Bool.false_or, decide_eq_true_eq] at hr
      refine ⟨rfl, ?_⟩
      simp only [List.length_append, List.length_singleton] at hr ⊢
      omega

@[simp] theorem copyFieldToArena_opts (ctx : Seg2Ctx) (p : Parser) (a b : Nat) :
    (copyFieldToArena ctx p a b).opts = p.opts := by
  unfold copyFieldToArena
  dsimp only
  split_ifs <;> rfl

@[simp] theorem copyFieldToArena_currentBatch (ctx : Seg2Ctx) (p : Parser) (a b : Nat) :
    (copyFieldToArena ctx p a b).currentBatch = p.currentBatch := by
  unfold copyFieldToArena
  dsimp only
  split_ifs <;> rfl

@[simp] theorem copyFieldToArena_emitted (ctx : Seg2Ctx) (p : Parser) (a b : Nat) :
    (copyFieldToArena ctx p a b).emitted = p.emitted := by
  unfold copyFieldToArena
  dsimp only
  split_ifs <;> rfl

@[simp] theorem copyFieldToArena_batchReady (ctx : Seg2Ctx) (p : Parser) (a b : Nat) :
    (copyFieldToArena ctx p a b).batchReady = p.batchReady := by
  unfold copyFieldToArena
  dsimp only
  split_ifs <;> rfl

@[simp] theorem copyFieldToArena_skipNextRow (ctx : Seg2Ctx) (p : Parser) (a b : Nat) :
    (copyFieldToArena ctx p a b).skipNextRow = p.skipNextRow := by
  unfold copyFieldToArena
  dsimp only
  split_ifs <;> rfl

@[simp] theorem appendQuoteToLastField_opts (p : Parser) :
    p.appendQuoteToLastField.opts = p.opts := by
  unfold Parser.appendQuoteToLastField
  split_ifs <;> rfl

@[simp] theorem appendQuoteToLastField_currentBatch (p : Parser) :
    p.appendQuoteToLastField.currentBatch = p.currentBatch := by
  unfold Parser.appendQuoteToLastField
  split_ifs <;> rfl

@[simp] theorem appendQuoteToLastField_emitted (p : Parser) :
    p.appendQuoteToLastField.emitted = p.emitted := by
  unfold Parser.appendQuoteToLastField
  split_ifs <;> rfl

@[simp] theorem appendQuoteToLastField_batchReady (p : Parser) :
    p.appendQuoteToLastField.batchReady = p.batchReady := by
  unfold Parser.appendQuoteToLastField
  split_ifs <;> rfl

@[simp] theorem appendToLastField_opts (ctx : Seg2Ctx) (p : Parser) (a b : Nat) :
    (appendToLastField ctx p a b).opts = p.opts := by
  unfold appendToLastField
  split_ifs <;> rfl

@[simp] theorem appendToLastField_currentBatch (ctx : Seg2Ctx) (p : Parser) (a b : Nat) :
    (appendToLastField ctx p a b).currentBatch = p.currentBatch := by
  unfold appendToLastField
  split_ifs <;> rfl

@[simp] theorem appendToLastField_emitted (ctx : Seg2Ctx) (p : Parser) (a b : Nat) :
    (appendToLastField ctx p a b).emitted = p.emitted := by
  unfold appendToLastField
  split_ifs <;> rfl

@[simp] theorem appendToLastField_batchReady (ctx : Seg2Ctx) (p : Parser) (a b : Nat) :
    (appendToLastField ctx p a b).batchReady = p.batchReady := by
  unfold appendToLastField
  split_ifs <;> rfl

/-- Recursion step for a branch whose prefix does not emit a row. -/
theorem stepok_rec_components (ctx : Seg2Ctx) (fuel : Nat) {p q : Parser}
    (i e f : Nat) (s : Bool)
    (ih : ∀ (p : Parser) (i endIdx fieldStart : Nat) (inSeg1 : Bool),
      p.batchReady = false → p.currentBatch.length < p.opts.batchSize →
      StepOk p (procLoop ctx fuel p i endIdx fieldStart inSeg1).2)
    (hready : p.batchReady = false)
    (hlen : p.currentBatch.length < p.opts.batchSize)
    (h1 : q.opts = p.opts) (h2 : q.currentBatch = p.currentBatch)
    (h3 : q.emitted = p.emitted) (h4 : q.batchReady = p.batchReady) :
    StepOk p (procLoop ctx fuel q i e f s).2 :=
  StepOk.trans (stepok_components hready hlen h1 h2 h3 h4)
    (ih q i e f s (h4.trans hready) (by rw [h2, h1]; exact hlen))

/-- Early batch-ready return of a branch that emitted a row. -/
theorem stepok_emit_ret {p p1 : Parser}
    (hready : p.batchReady = false)
    (hlen : p.currentBatch.length < p.opts.batchSize)
    (h1 : p1.opts = p.opts) (h2 : p1.currentBatch = p.currentBatch)
    (h3 : p1.emitted = p.emitted) (h4 : p1.batchReady = p.batchReady) :
    StepOk p { p1.emitRow with state := PState.fieldStart } :=
  StepOk.trans (stepok_components hready hlen h1 h2 h3 h4)
    (stepok_congr_right
      (stepok_emitRow p1 (h4.trans hready) (by rw [h2, h1]; exact hlen))
      rfl rfl rfl rfl rfl)

/-- Recursion step for a branch that emitted a row and was not ready. -/
theorem stepok_emit_rec (ctx : Seg2Ctx) (fuel : Nat) {p p1 : Parser}
    (i e f : Nat) (s : Bool)
    (ih : ∀ (p : Parser) (i endIdx fieldStart : Nat) (inSeg1 : Bool),
      p.batchReady = false → p.currentBatch.length < p.opts.batchSize →
      StepOk p (procLoop ctx fuel p i endIdx fieldStart inSeg1).2)
    (hready : p.batchReady = false)
    (hlen : p.currentBatch.length < p.opts.batchSize)
    (h1 : p1.opts = p.opts) (h2 : p1.currentBatch = p.currentBatch)
    (h3 : p1.emitted = p.emitted) (h4 : p1.batchReady = p.batchReady)
    (hnr : ({ p1.emitRow with state := PState.fieldStart } : Parser).batchReady = false) :
    StepOk p (procLoop ctx fuel { p1.emitRow with state := PState.fieldStart } i e f s).2 := by
  have s13 : StepOk p { p1.emitRow with state := PState.fieldStart } :=
    stepok_emit_ret hready hlen h1 h2 h3 h4
  exact s13.trans (ih _ i e f s hnr (s13.2.2.1 hnr))

set_option maxHeartbeats 4000000 in
/-- The scan loop preserves the batch-bound invariant and accounts
every row it emits into the current batch; it is entered only with
`batch_ready` false (the drivers drain before feeding). -/
theorem procLoop_spec (ctx : Seg2Ctx) :
    ∀ (fuel : Nat) (p : Parser) (i endIdx fieldStart : Nat) (inSeg1 : Bool),
      p.batchReady = false → p.currentBatch.length < p.opts.batchSize →
      StepOk p (procLoop ctx fuel p i endIdx fieldStart inSeg1).2 := by
  intro fuel
  induction fuel with
  | zero =>
    intro p i e f s hready hlen
    exact stepok_components hready hlen rfl rfl rfl rfl
  | succ fuel ih =>
    intro p i e f s hready hlen
    simp only [procLoop]
    split
    · split <;> (repeat' split) <;> (try dsimp only)
      any_goals exact ih _ _ _ _ _ hready hlen
      any_goals
        (refine stepok_emit_ret hready hlen ?_ ?_ ?_ ?_ <;> simp)
      any_goals
        (rename_i hnr0
         refine stepok_emit_rec ctx fuel _ _ _ _ ih hready hlen
           ?_ ?_ ?_ ?_ (by simpa using hnr0) <;> simp)
      all_goals
        (refine stepok_rec_components ctx fuel _ _ _ _ ih hready hlen
           ?_ ?_ ?_ ?_ <;> simp)
    · exact stepok_components hready hlen rfl rfl rfl rfl

/-- Facts about one drain step: it removes at most one batch, whose rows
are exactly the current batch; the row count moves from the parser to the
batch; nothing else the invariant tracks changes. -/
theorem drainOne_facts (p2 : Parser) :
    (∀ b ∈ (drainOne p2).1, b.rows = p2.currentBatch) ∧
    (drainOne p2).1.length ≤ 1 ∧
    ((drainOne p2).1.map (fun b => b.rows.length)).sum
        + (drainOne p2).2.currentBatch.length = p2.currentBatch.length ∧
    (drainOne p2).2.emitted = p2.emitted ∧
    (drainOne p2).2.state = p2.state ∧
    (p2.batchReady = true → (drainOne p2).2.currentBatch = []) ∧
    (p2.batchReady = false → (drainOne p2).2 = p2) ∧
    (p2.batchReady = false → (drainOne p2).1 = []) := by
  unfold drainOne Parser.takeBatch
  by_cases hr : p2.batchReady <;> simp [hr]

theorem stepok_processTwoSegments (p : Parser) (s1 s2 : List Char)
    (hready : p.batchReady = false)
    (hlen : p.currentBatch.length < p.opts.batchSize) :
    StepOk p (p.processTwoSegments s1 s2).2 := by
  unfold Parser.processTwoSegments
  dsimp only
  split
  · exact procLoop_spec _ _ _ _ _ _ _ hready hlen
  · split
    · exact procLoop_spec _ _ _ _ _ _ _ hready hlen
    · exact stepok_components hready hlen rfl rfl rfl rfl

theorem stepok_feed (p : Parser) (s1 s2 : List Char)
    (hready : p.batchReady = false)
    (hlen : p.currentBatch.length < p.opts.batchSize) :
    StepOk p (p.feed s1 s2) := by
  unfold Parser.feed
  dsimp only
  exact stepok_congr_right (stepok_processTwoSegments p s1 s2 hready hlen)
    rfl rfl rfl rfl rfl

/-- Invariant carried by the row driver between iterations: the drained
batches so far are all exactly full, their rows plus the in-progress
batch account for every emitted row, and the parser sits strictly below
the batch bound with no batch pending. -/
def DriverInv (opts : CsvOptions) (bs : List SliceBatch) (p : Parser) : Prop :=
  p.opts = opts ∧ p.batchReady = false ∧
  p.currentBatch.length < opts.batchSize ∧
  (bs.map (fun b => b.rows.length)).sum + p.currentBatch.length = p.emitted ∧
  ∀ b ∈ bs, b.rows.length = opts.batchSize

theorem driverInv_feed_drain (opts : CsvOptions) (bs : List SliceBatch)
    (p : Parser) (s1 s2 : List Char) (hbs : 1 ≤ opts.batchSize)
    (h : DriverInv opts bs p) :
    DriverInv opts (bs ++ (drainOne (p.feed s1 s2)).1)
      (drainOne (p.feed s1 s2)).2 := by
  obtain ⟨ho, hr, hl, ha, hb⟩ := h
  obtain ⟨q1, q2, q3, q4⟩ := stepok_feed p s1 s2 hr (by rw [ho]; exact hl)
  by_cases hqr : (p.feed s1 s2).batchReady
  · have h4 := q4 hqr
    refine ⟨?_, ?_, ?_, ?_, ?_⟩ <;>
      simp [drainOne, Parser.takeBatch, hqr, q1, ho]
    · omega
    · omega
    · intro b hmem
      rcases hmem with hmem | rfl
      · exact hb b hmem
      · rw [h4.2, q1, ho]
  · have hqr' : (p.feed s1 s2).batchReady = false := by
      simpa using hqr
    refine ⟨?_, ?_, ?_, ?_, ?_⟩ <;>
      simp [drainOne, hqr']
    · rw [q1, ho]
    · rw [← ho, ← q1]
      exact q3 hqr'
    · omega
    · exact hb

theorem runLoop_inv (opts : CsvOptions) (hbs : 1 ≤ opts.batchSize)
    (cs : List (List Char)) :
    ∀ (bs : List SliceBatch) (p : Parser), DriverInv opts bs p →
      DriverInv opts (bs ++ (runLoop cs p).1) (runLoop cs p).2 := by
  induction cs with
  | nil =>
    intro bs p h
    unfold runLoop
    split
    · simpa using h
    · exact driverInv_feed_drain opts bs p _ _ hbs h
  | cons c cs ih =>
    intro bs p h
    unfold runLoop
    dsimp only
    split
    · simpa using h
    · split
      · exact driverInv_feed_drain opts bs p _ _ hbs h
      · have h2 := ih _ _ (driverInv_feed_drain opts bs p p.remainder c hbs h)
        simpa [List.append_assoc] using h2

theorem flush_drain_spec (opts : CsvOptions) (hbs : 1 ≤ opts.batchSize)
    (p1 : Parser) (ho : p1.opts = opts)
    (h3 : p1.batchReady = false → p1.currentBatch.length < opts.batchSize)
    (h4 : p1.batchReady = true →
      p1.currentRow = [] ∧ p1.currentBatch.length = opts.batchSize) :
    (∀ b ∈ (drainOne p1.flush).1, b.rows.length ≤ opts.batchSize) ∧
    (drainOne p1.flush).1.length ≤ 1 ∧
    ((drainOne p1.flush).1.map (fun b => b.rows.length)).sum
        + (drainOne p1.flush).2.currentBatch.length + p1.emitted
      = (drainOne p1.flush).2.emitted + p1.currentBatch.length ∧
    ((drainOne p1.flush).2.state = PState.inQuoted ∨
     (drainOne p1.flush).2.state = PState.inQuotedAfterQuote ∨
     (drainOne p1.flush).2.currentBatch = []) := by
  have hfl : (p1.flush.batchReady = true →
        p1.flush.currentBatch.length ≤ opts.batchSize) ∧
      (p1.flush.currentBatch.length + p1.emitted
        = p1.flush.emitted + p1.currentBatch.length) ∧
      (p1.flush.state = p1.state) ∧
      (¬(p1.state = PState.inQuoted ∨ p1.state = PState.inQuotedAfterQuote) →
        p1.flush.batchReady = false → p1.flush.currentBatch = []) := by
    unfold Parser.flush
    by_cases hq : p1.state = PState.inQuoted ∨ p1.state = PState.inQuotedAfterQuote
    · rw [if_pos hq]
      exact ⟨fun hready => le_of_eq (h4 hready).2, Nat.add_comm _ _, rfl,
        fun hnq => absurd hq hnq⟩
    · rw [if_neg hq]
      dsimp only
      by_cases hrow : p1.currentRow.isEmpty
      · by_cases hcb : p1.currentBatch.isEmpty
        · simp [hrow, hcb]
          exact ⟨fun hready => le_of_eq (h4 hready).2, Nat.add_comm _ _,
            fun _ _ _ => List.isEmpty_iff.mp hcb⟩
        · simp [hrow, hcb]
          refine ⟨?_, Nat.add_comm _ _⟩
          rcases Bool.eq_false_or_eq_true p1.batchReady with hr | hr
          · exact le_of_eq (h4 hr).2
          · exact le_of_lt (h3 hr)
      · have hpr : p1.batchReady = false := by
          rcases Bool.eq_false_or_eq_true p1.batchReady with hr | hr
          · exfalso
            have hr0 := (h4 hr).1
            rw [hr0] at hrow
            exact hrow rfl
          · exact hr
        by_cases hskip : p1.skipNextRow
        · by_cases hcb : p1.currentBatch.isEmpty
          · simp [hrow, Parser.emitRow, hskip, hcb, hpr]
            exact ⟨Nat.add_comm _ _, fun _ _ => List.isEmpty_iff.mp hcb⟩
          · simp [hrow, Parser.emitRow, hskip, hcb]
            refine ⟨?_, Nat.add_comm _ _⟩
            exact le_of_lt (h3 hpr)
        · simp [hrow, Parser.emitRow, hskip]
          refine ⟨?_, ?_⟩
          · have := h3 hpr
            omega
          · omega
  obtain ⟨f1, f2, f3, f4⟩ := hfl
  obtain ⟨d1, d2, d3, d4, d5, d6, d7, d8⟩ := drainOne_facts p1.flush
  refine ⟨?_, d2, ?_, ?_⟩
  · intro b hmem
    rcases Bool.eq_false_or_eq_true p1.flush.batchReady with hr | hr
    · rw [d1 b hmem]
      exact f1 hr
    · rw [d8 hr] at hmem
      cases hmem
  · omega
  · by_cases hq : p1.state = PState.inQuoted ∨ p1.state = PState.inQuotedAfterQuote
    · rw [d5, f3]
      rcases hq with hq | hq
      · exact Or.inl hq
      · exact Or.inr (Or.inl hq)
    · refine Or.inr (Or.inr ?_)
      rcases Bool.eq_false_or_eq_true p1.flush.batchReady with hr | hr
      · exact d6 hr
      · rw [d7 hr]
        exact f4 hq hr

theorem epilogue_core (opts : CsvOptions) (hbs : 1 ≤ opts.batchSize)
    (bs : List SliceBatch) (p p1 : Parser)
    (h : DriverInv opts bs p) (hstep : StepOk p p1) :
    (∀ b ∈ (drainOne p1.flush).1, b.rows.length ≤ opts.batchSize) ∧
    (drainOne p1.flush).1.length ≤ 1 ∧
    ((bs ++ (drainOne p1.flush).1).map (fun b => b.rows.length)).sum
        + (drainOne p1.flush).2.currentBatch.length
      = (drainOne p1.flush).2.emitted ∧
    ((drainOne p1.flush).2.state = PState.inQuoted ∨
     (drainOne p1.flush).2.state = PState.inQuotedAfterQuote ∨
     (drainOne p1.flush).2.currentBatch = []) := by
  obtain ⟨ho, hr, hl, ha, hb⟩ := h
  obtain ⟨q1, q2, q3, q4⟩ := hstep
  have ho1 : p1.opts = opts := q1.trans ho
  obtain ⟨e1, e2, e3, e4⟩ := flush_drain_spec opts hbs p1 ho1
    (fun hh => by rw [← ho1]; exact q3 hh)
    (fun hh => by rw [← ho1]; exact q4 hh)
  refine ⟨e1, e2, ?_, e4⟩
  rw [List.map_append, List.sum_append]
  omega

theorem runEpilogue_spec (opts : CsvOptions) (hbs : 1 ≤ opts.batchSize)
    (bs : List SliceBatch) (p : Parser) (h : DriverInv opts bs p) :
    (∀ b ∈ (runEpilogue p).1, b.rows.length ≤ opts.batchSize) ∧
    (runEpilogue p).1.length ≤ 1 ∧
    ((bs ++ (runEpilogue p).1).map (fun b => b.rows.length)).sum
        + (runEpilogue p).2.currentBatch.length
      = (runEpilogue p).2.emitted ∧
    ((runEpilogue p).2.state = PState.inQuoted ∨
     (runEpilogue p).2.state = PState.inQuotedAfterQuote ∨
     (runEpilogue p).2.currentBatch = []) := by
  unfold runEpilogue
  dsimp only
  by_cases hrem : p.remainder.isEmpty
  · rw [if_neg (by simpa using hrem)]
    exact epilogue_core opts hbs bs p p h
      (stepok_components h.2.1 (by rw [h.1]; exact h.2.2.1) rfl rfl rfl rfl)
  · rw [if_pos (by simpa using hrem)]
    exact epilogue_core opts hbs bs p _ h
      (stepok_feed p _ _ h.2.1 (by rw [h.1]; exact h.2.2.1))

/-- C5 (amended): with a positive `batch_size`, every batch the row
pipeline delivers has at most `batch_size` rows, all but possibly the
last have exactly `batch_size` rows, and the delivered row counts plus
the rows still sitting in the parser's unfinished batch account for
every emitted (non-skipped) row; when the stream does not end inside a
quoted field the unfinished batch is empty, so the delivered counts sum
to exactly the number of emitted rows.  (The original claim's
unconditional `sum = emitted` fails: rows emitted before an unterminated
quote are stranded, see the counterexample.) -/
theorem C5_batch_bounds (opts : CsvOptions) (chunks : List (List Char))
    (hbs : 1 ≤ opts.batchSize) :
    (∀ b ∈ (runPipelineSlice opts chunks).1,
        b.rows.length ≤ opts.batchSize) ∧
    (∀ b ∈ (runPipelineSlice opts chunks).1.dropLast,
        b.rows.length = opts.batchSize) ∧
    (((runPipelineSlice opts chunks).1.map (fun b => b.rows.length)).sum
        + (runPipelineSlice opts chunks).2.currentBatch.length
      = (runPipelineSlice opts chunks).2.emitted) ∧
    ((runPipelineSlice opts chunks).2.state ≠ PState.inQuoted →
     (runPipelineSlice opts chunks).2.state ≠ PState.inQuotedAfterQuote →
     ((runPipelineSlice opts chunks).1.map (fun b => b.rows.length)).sum
       = (runPipelineSlice opts chunks).2.emitted) := by
  have hinit : DriverInv opts []
      (if opts.hasHeader then (Parser.init opts).skipOneRow
       else Parser.init opts) := by
    by_cases hh : opts.hasHeader <;>
      simp [hh, DriverInv, Parser.init, Parser.skipOneRow, hbs] <;> omega
  have hmain := runLoop_inv opts hbs chunks [] _ hinit
  rw [List.nil_append] at hmain
  obtain ⟨e1, e2, e3, e4⟩ := runEpilogue_spec opts hbs _ _ hmain
  unfold runPipelineSlice
  dsimp only
  refine ⟨?_, ?_, e3, ?_⟩
  · intro b hmem
    rcases List.mem_append.mp hmem with hmem | hmem
    · exact le_of_eq (hmain.2.2.2.2 b hmem)
    · exact e1 b hmem
  · intro b hmem
    rcases hr2 : (runEpilogue (runLoop chunks (if opts.hasHeader
        then (Parser.init opts).skipOneRow else Parser.init opts)).2).1
      with _ | ⟨x, xs⟩
    · rw [hr2, List.append_nil] at hmem
      exact hmain.2.2.2.2 b ((List.dropLast_sublist _).subset hmem)
    · rcases xs with _ | ⟨y, ys⟩
      · rw [hr2] at hmem
        rw [List.dropLast_concat] at hmem
        exact hmain.2.2.2.2 b hmem
      · rw [hr2] at e2
        simp at e2
  · intro hs1 hs2
    rcases e4 with h4 | h4 | h4
    · exact absurd h4 hs1
    · exact absurd h4 hs2
    · rw [h4] at e3
      simpa using e3

theorem C5_batch_bounds_witness :
    1 ≤ ({ batchSize := 2 } : CsvOptions).batchSize ∧
    (∀ b ∈ (runPipelineSlice { batchSize := 2 } [("a\nb\nc\n").toList]).1,
        b.rows.length ≤ 2) ∧
    (∀ b ∈ (runPipelineSlice { batchSize := 2 }
        [("a\nb\nc\n").toList]).1.dropLast, b.rows.length = 2) ∧
    ((runPipelineSlice { batchSize := 2 } [("a\nb\nc\n").toList]).1.map
        (fun b => b.rows.length)).sum
      = (runPipelineSlice { batchSize := 2 } [("a\nb\nc\n").toList]).2.emitted :=
  ⟨by decide,
   (C5_batch_bounds { batchSize := 2 } [("a\nb\nc\n").toList] (by decide)).1,
   (C5_batch_bounds { batchSize := 2 } [("a\nb\nc\n").toList] (by decide)).2.1,
   (C5_batch_bounds { batchSize := 2 } [("a\nb\nc\n").toList]
      (by decide)).2.2.2 (by decide) (by decide)⟩

end UltraTab
